import Mathlib

/-!
# Verification of the rabbot broker facade (`src/index.js`)

This file gives a shallow embedding, in Lean 4, of the message-broker facade
implemented in `src/index.js` of the rabbot repository, and proves (or refutes)
the specification claims about it.

Conventions of the embedding:
* JavaScript strings are `String` (for names) or `List Char` (where character
  level reasoning is needed, e.g. topic sanitization); byte buffers are
  `List Nat` with every entry < 256 where relevant.
* JavaScript objects keyed by strings (`this.connections`, `topology.channels`)
  are association lists `List (String × α)` with first-match lookup and
  insertion-order preserved insertion, matching JS object key semantics.
* Synchronously thrown JS exceptions are `Except JsError α`; a settled promise
  result is `Except String α` (rejected with a message, or resolved).
* Side effects observable by collaborators (event emissions, `console.warn`,
  calls into the external `Connection`/`Topology` objects, timers) are recorded
  in an explicit `Effect` list.
* External collaborators absent from `src/` (the `when` promise library, the
  postal dispatch channel, Node's `Buffer`/`JSON` codecs, the connection FSM)
  are modelled from the specification; each such definition carries a doc
  comment saying so.
-/

set_option maxHeartbeats 2000000

namespace Rabbot

/-- Character strings used where per-character reasoning is needed. -/
abbrev Str := List Char

/-- First-match lookup in a JS-object-like association list
(`obj[key]`, `undefined` becomes `none`). -/
def lookupStr {α : Type} (k : String) : List (String × α) → Option α
  | [] => none
  | (k', v) :: rest => if k' = k then some v else lookupStr k rest

/-- JS-object assignment `obj[key] = v`: replace in place if the key exists,
otherwise append (new keys enumerate last). -/
def insertStr {α : Type} (k : String) (v : α) : List (String × α) → List (String × α)
  | [] => [(k, v)]
  | (k', v') :: rest => if k' = k then (k', v) :: rest else (k', v') :: insertStr k v rest

/-- JS-object deletion `delete obj[key]`. -/
def removeStr {α : Type} (k : String) : List (String × α) → List (String × α)
  | [] => []
  | (k', v') :: rest => if k' = k then rest else (k', v') :: removeStr k rest

instance {ε α : Type} [DecidableEq ε] [DecidableEq α] : DecidableEq (Except ε α) := fun x y =>
  match x, y with
  | .ok a, .ok b =>
    if h : a = b then .isTrue (h ▸ rfl) else .isFalse (fun hc => h (Except.ok.inj hc))
  | .error e, .error f =>
    if h : e = f then .isTrue (h ▸ rfl) else .isFalse (fun hc => h (Except.error.inj hc))
  | .ok _, .error _ => .isFalse (fun hc => Except.noConfusion hc)
  | .error _, .ok _ => .isFalse (fun hc => Except.noConfusion hc)

/-! ## UTF-8 encoding

`src/index.js` serializes text through Node's `Buffer(s, "utf8")` /
`bytes.toString("utf8")`. The `Buffer` codec is external to the repository, so
the UTF-8 encoding is modelled here explicitly on Unicode scalar values. -/

/-- UTF-8 encoding of one Unicode scalar value (given as a `Nat`). -/
def utf8EncodeCodepoint (n : Nat) : List Nat :=
  if n < 0x80 then [n]
  else if n < 0x800 then [0xC0 + n / 64, 0x80 + n % 64]
  else if n < 0x10000 then [0xE0 + n / 4096, 0x80 + (n / 64) % 64, 0x80 + n % 64]
  else [0xF0 + n / 262144, 0x80 + (n / 4096) % 64, 0x80 + (n / 64) % 64, 0x80 + n % 64]

/-- Is a byte a UTF-8 continuation byte (`10xxxxxx`)? -/
def isContinuationByte (b : Nat) : Bool := 0x80 ≤ b && b < 0xC0

/-- UTF-8 decoding of one scalar value from the head of a byte list, rejecting
overlong forms and surrogate code points. Returns the scalar value and the
remaining bytes. -/
def utf8DecodeCodepoint : List Nat → Option (Nat × List Nat)
  | [] => none
  | b :: rest =>
    if b < 0x80 then some (b, rest)
    else if b < 0xC0 then none
    else if b < 0xE0 then
      match rest with
      | b1 :: r =>
        if isContinuationByte b1 then
          let n := (b - 0xC0) * 64 + (b1 - 0x80)
          if 0x80 ≤ n then some (n, r) else none
        else none
      | [] => none
    else if b < 0xF0 then
      match rest with
      | b1 :: b2 :: r =>
        if isContinuationByte b1 && isContinuationByte b2 then
          let n := (b - 0xE0) * 4096 + (b1 - 0x80) * 64 + (b2 - 0x80)
          if 0x800 ≤ n && !(0xD800 ≤ n && n < 0xE000) then some (n, r) else none
        else none
      | _ => none
    else if b < 0xF8 then
      match rest with
      | b1 :: b2 :: b3 :: r =>
        if isContinuationByte b1 && isContinuationByte b2 && isContinuationByte b3 then
          let n := (b - 0xF0) * 262144 + (b1 - 0x80) * 4096 + (b2 - 0x80) * 64 + (b3 - 0x80)
          if 0x10000 ≤ n && n < 0x110000 then some (n, r) else none
        else none
      | _ => none
    else none

/-- UTF-8 encoding of a character string (as produced by `Buffer(s, "utf8")`). -/
def utf8Encode : Str → List Nat
  | [] => []
  | c :: cs => utf8EncodeCodepoint c.toNat ++ utf8Encode cs

/-- Fuelled UTF-8 decoding loop; each step consumes at least one byte and
produces one character. -/
def utf8DecodeLoop : Nat → List Nat → Option Str
  | _, [] => some []
  | 0, _ :: _ => none
  | fuel + 1, bs =>
    match utf8DecodeCodepoint bs with
    | none => none
    | some (n, rest) =>
      if _h : n.isValidChar then
        match utf8DecodeLoop fuel rest with
        | none => none
        | some cs => some (Char.ofNat n :: cs)
      else none

/-- UTF-8 decoding of a byte list (as performed by `bytes.toString("utf8")`;
invalid sequences are modelled as decoding failure). -/
def utf8Decode (bs : List Nat) : Option Str := utf8DecodeLoop bs.length bs

theorem utf8DecodeCodepoint_encode (c : Char) (rest : List Nat) :
    utf8DecodeCodepoint (utf8EncodeCodepoint c.toNat ++ rest) = some (c.toNat, rest) := by
  have hv : c.toNat < 0xd800 ∨ (0xdfff < c.toNat ∧ c.toNat < 0x110000) := c.valid
  simp only [utf8EncodeCodepoint]
  by_cases h1 : c.toNat < 0x80
  · simp [h1, utf8DecodeCodepoint]
  · by_cases h2 : c.toNat < 0x800
    · simp only [h1, if_false, h2, if_true, List.cons_append]
      have hb : ¬ (0xC0 + c.toNat / 64 < 0x80) := by omega
      have hb2 : ¬ (0xC0 + c.toNat / 64 < 0xC0) := by omega
      have hb3 : 0xC0 + c.toNat / 64 < 0xE0 := by omega
      simp only [utf8DecodeCodepoint, hb, if_false, hb2, hb3, if_true, List.cons_append]
      have hc : isContinuationByte (0x80 + c.toNat % 64) = true := by
        simp [isContinuationByte]; omega
      simp only [hc, if_true]
      have : (0xC0 + c.toNat / 64 - 0xC0) * 64 + (0x80 + c.toNat % 64 - 0x80) = c.toNat := by
        omega
      simp only [this]
      have : (0x80 : Nat) ≤ c.toNat := by omega
      simp [this]
    · by_cases h3 : c.toNat < 0x10000
      · simp only [h1, if_false, h2, h3, if_true, List.cons_append]
        have hb : ¬ (0xE0 + c.toNat / 4096 < 0x80) := by omega
        have hb2 : ¬ (0xE0 + c.toNat / 4096 < 0xC0) := by omega
        have hb3 : ¬ (0xE0 + c.toNat / 4096 < 0xE0) := by omega
        have hb4 : 0xE0 + c.toNat / 4096 < 0xF0 := by omega
        simp only [utf8DecodeCodepoint, hb, if_false, hb2, hb3, hb4, if_true, List.cons_append]
        have hc1 : isContinuationByte (0x80 + c.toNat / 64 % 64) = true := by
          simp [isContinuationByte]; omega
        have hc2 : isContinuationByte (0x80 + c.toNat % 64) = true := by
          simp [isContinuationByte]; omega
        simp only [hc1, hc2, Bool.and_true, if_true]
        have heq : (0xE0 + c.toNat / 4096 - 0xE0) * 4096 + (0x80 + c.toNat / 64 % 64 - 0x80) * 64
            + (0x80 + c.toNat % 64 - 0x80) = c.toNat := by
          omega
        simp only [heq]
        simp
        omega
      · have h4 : c.toNat < 0x110000 := by omega
        simp only [h1, if_false, h2, h3, List.cons_append]
        have hb : ¬ (0xF0 + c.toNat / 262144 < 0x80) := by omega
        have hb2 : ¬ (0xF0 + c.toNat / 262144 < 0xC0) := by omega
        have hb3 : ¬ (0xF0 + c.toNat / 262144 < 0xE0) := by omega
        have hb4 : ¬ (0xF0 + c.toNat / 262144 < 0xF0) := by omega
        have hb5 : 0xF0 + c.toNat / 262144 < 0xF8 := by omega
        simp only [utf8DecodeCodepoint, hb, if_false, hb2, hb3, hb4, hb5, if_true,
          List.cons_append]
        have hc1 : isContinuationByte (0x80 + c.toNat / 4096 % 64) = true := by
          simp [isContinuationByte]; omega
        have hc2 : isContinuationByte (0x80 + c.toNat / 64 % 64) = true := by
          simp [isContinuationByte]; omega
        have hc3 : isContinuationByte (0x80 + c.toNat % 64) = true := by
          simp [isContinuationByte]; omega
        simp only [hc1, hc2, hc3, Bool.and_true, if_true]
        have heq : (0xF0 + c.toNat / 262144 - 0xF0) * 262144
            + (0x80 + c.toNat / 4096 % 64 - 0x80) * 4096
            + (0x80 + c.toNat / 64 % 64 - 0x80) * 64
            + (0x80 + c.toNat % 64 - 0x80) = c.toNat := by
          omega
        simp only [heq]
        have hr : (0x10000 ≤ c.toNat && c.toNat < 0x110000) = true := by
          simp; omega
        simp [hr]

theorem utf8EncodeCodepoint_ne_nil (n : Nat) : utf8EncodeCodepoint n ≠ [] := by
  unfold utf8EncodeCodepoint
  split
  · simp
  · split
    · simp
    · split <;> simp

theorem length_le_utf8Encode (s : Str) : s.length ≤ (utf8Encode s).length := by
  induction s with
  | nil => simp [utf8Encode]
  | cons c cs ih =>
    simp only [utf8Encode, List.length_append, List.length_cons]
    have := utf8EncodeCodepoint_ne_nil c.toNat
    have : 1 ≤ (utf8EncodeCodepoint c.toNat).length := by
      cases h : utf8EncodeCodepoint c.toNat with
      | nil => exact absurd h this
      | cons _ _ => simp
    omega

theorem utf8DecodeLoop_encode (s : Str) : ∀ fuel, s.length ≤ fuel →
    utf8DecodeLoop fuel (utf8Encode s) = some s := by
  induction s with
  | nil => intro fuel _; cases fuel <;> rfl
  | cons c cs ih =>
    intro fuel hf
    cases fuel with
    | zero => simp at hf
    | succ fuel =>
      have hne := utf8EncodeCodepoint_ne_nil c.toNat
      have hcons : ∃ b bs, utf8EncodeCodepoint c.toNat = b :: bs := by
        cases h : utf8EncodeCodepoint c.toNat with
        | nil => exact absurd h hne
        | cons b bs => exact ⟨b, bs, rfl⟩
      obtain ⟨b, bs, hb⟩ := hcons
      have henc : utf8Encode (c :: cs) = b :: (bs ++ utf8Encode cs) := by
        simp [utf8Encode, hb]
      rw [henc]
      have hdec : utf8DecodeCodepoint (b :: (bs ++ utf8Encode cs)) = some (c.toNat, utf8Encode cs) := by
        have := utf8DecodeCodepoint_encode c (utf8Encode cs)
        rwa [hb, List.cons_append] at this
      simp only [utf8DecodeLoop, hdec]
      have hv : c.toNat.isValidChar := c.valid
      rw [dif_pos hv]
      have hcs : cs.length ≤ fuel := by
        have h' := hf
        rw [List.length_cons] at h'
        omega
      rw [ih fuel hcs]
      simp

/-- Round trip of the modelled `Buffer` UTF-8 codec. -/
theorem utf8Decode_encode (s : Str) : utf8Decode (utf8Encode s) = some s := by
  exact utf8DecodeLoop_encode s _ (length_le_utf8Encode s)

/-! ## JSON values and the `JSON.stringify` / `JSON.parse` codec

The `application/json` serializer in `src/index.js` is
`serialize = Buffer(JSON.stringify(object), "utf8")` and
`deserialize = JSON.parse(bytes.toString(encoding || "utf8"))`. `JSON` is a
JavaScript built-in, external to the repository, so it is modelled from the
spec ("structured-text encoding" of JSON-representable structured objects):
a compact printer and a recursive-descent parser over an explicit JSON value
type. Numbers are modelled as integers (the exactly-representable kernel of
JS numbers). -/

/-- JSON-representable structured values. -/
inductive JsonValue where
  | null : JsonValue
  | bool : Bool → JsonValue
  | num : Int → JsonValue
  | str : Str → JsonValue
  | arr : List JsonValue → JsonValue
  | obj : List (Str × JsonValue) → JsonValue
deriving Repr

/-- Decimal digit character for a value < 10. -/
def digitChar (d : Nat) : Char :=
  match d with
  | 0 => '0' | 1 => '1' | 2 => '2' | 3 => '3' | 4 => '4'
  | 5 => '5' | 6 => '6' | 7 => '7' | 8 => '8' | _ => '9'

/-- Numeric value of a decimal digit character. -/
def digitVal? (c : Char) : Option Nat :=
  if '0' ≤ c ∧ c ≤ '9' then some (c.toNat - '0'.toNat) else none

/-- Lower-case hexadecimal digit character for a value < 16. -/
def hexDigitChar (d : Nat) : Char :=
  match d with
  | 0 => '0' | 1 => '1' | 2 => '2' | 3 => '3' | 4 => '4'
  | 5 => '5' | 6 => '6' | 7 => '7' | 8 => '8' | 9 => '9'
  | 10 => 'a' | 11 => 'b' | 12 => 'c' | 13 => 'd' | 14 => 'e' | _ => 'f'

/-- Numeric value of a hexadecimal digit character (either case). -/
def hexVal? (c : Char) : Option Nat :=
  if '0' ≤ c ∧ c ≤ '9' then some (c.toNat - '0'.toNat)
  else if 'a' ≤ c ∧ c ≤ 'f' then some (c.toNat - 'a'.toNat + 10)
  else if 'A' ≤ c ∧ c ≤ 'F' then some (c.toNat - 'A'.toNat + 10)
  else none

/-- JSON string escaping of one character, as `JSON.stringify` performs it:
quote and backslash get a backslash escape, the five named control characters
get their short escapes, remaining control characters become `\u00XX`. -/
def escapeChar (c : Char) : Str :=
  if c = '"' then ['\\', '"']
  else if c = '\\' then ['\\', '\\']
  else if c = '\x08' then ['\\', 'b']
  else if c = '\t' then ['\\', 't']
  else if c = '\n' then ['\\', 'n']
  else if c = '\x0c' then ['\\', 'f']
  else if c = '\r' then ['\\', 'r']
  else if c.toNat < 32 then
    '\\' :: 'u' :: '0' :: '0' :: hexDigitChar (c.toNat / 16) :: [hexDigitChar (c.toNat % 16)]
  else [c]

/-- JSON string escaping of a whole string body. -/
def escapeString : Str → Str
  | [] => []
  | c :: cs => escapeChar c ++ escapeString cs

/-- Inverse of the single-character short escapes. -/
def unescapeChar (c : Char) : Option Char :=
  if c = '"' then some '"'
  else if c = '\\' then some '\\'
  else if c = '/' then some '/'
  else if c = 'b' then some '\x08'
  else if c = 't' then some '\t'
  else if c = 'n' then some '\n'
  else if c = 'f' then some '\x0c'
  else if c = 'r' then some '\r'
  else none

/-- Parse a JSON string body (after the opening quote) up to and including the
closing quote; returns the unescaped content and the remaining input. -/
def parseStringBody : Str → Option (Str × Str)
  | [] => none
  | c :: rest =>
    if c = '"' then some ([], rest)
    else if c = '\\' then
      match rest with
      | [] => none
      | e :: rest2 =>
        if e = 'u' then
          match rest2 with
          | h1 :: h2 :: h3 :: h4 :: rest3 =>
            match hexVal? h1, hexVal? h2, hexVal? h3, hexVal? h4 with
            | some a, some b, some c2, some d =>
              let n := ((a * 16 + b) * 16 + c2) * 16 + d
              if _h : n.isValidChar then
                match parseStringBody rest3 with
                | none => none
                | some (s, r) => some (Char.ofNat n :: s, r)
              else none
            | _, _, _, _ => none
          | _ => none
        else
          match unescapeChar e with
          | none => none
          | some c2 =>
            match parseStringBody rest2 with
            | none => none
            | some (s, r) => some (c2 :: s, r)
    else
      match parseStringBody rest with
      | none => none
      | some (s, r) => some (c :: s, r)

/-- Decimal digit string of a natural number, most significant first. -/
def natToChars (n : Nat) : Str :=
  if _h : n < 10 then [digitChar n]
  else natToChars (n / 10) ++ [digitChar (n % 10)]
termination_by n
decreasing_by exact Nat.div_lt_self (by omega) (by omega)

/-- Decimal string of an integer, as `JSON.stringify` prints integral numbers. -/
def intToChars (k : Int) : Str :=
  if k < 0 then '-' :: natToChars k.natAbs else natToChars k.toNat

/-- Consume leading decimal digits, accumulating their value. -/
def readDigits (acc : Nat) : Str → Nat × Str
  | [] => (acc, [])
  | c :: rest =>
    match digitVal? c with
    | some d => readDigits (acc * 10 + d) rest
    | none => (acc, c :: rest)

/-- Parse a natural number (at least one leading digit required). -/
def readNat : Str → Option (Nat × Str)
  | [] => none
  | c :: rest =>
    match digitVal? c with
    | some d => some (readDigits d rest)
    | none => none

/-- Parse an optionally negated integer literal. -/
def parseNumber : Str → Option (Int × Str)
  | [] => none
  | c :: rest =>
    if c = '-' then
      match readNat rest with
      | some (n, r) => some (-(n : Int), r)
      | none => none
    else
      match readNat (c :: rest) with
      | some (n, r) => some ((n : Int), r)
      | none => none

mutual

/-- Compact JSON printing, as `JSON.stringify` (no whitespace). -/
def jsonStringify : JsonValue → Str
  | .null => ['n', 'u', 'l', 'l']
  | .bool b => if b then ['t', 'r', 'u', 'e'] else ['f', 'a', 'l', 's', 'e']
  | .num k => intToChars k
  | .str s => '"' :: (escapeString s ++ ['"'])
  | .arr xs => '[' :: (stringifyElems xs ++ [']'])
  | .obj fs => '\x7b' :: (stringifyMembers fs ++ ['\x7d'])

/-- Comma-separated printing of array elements. -/
def stringifyElems : List JsonValue → Str
  | [] => []
  | [x] => jsonStringify x
  | x :: y :: xs => jsonStringify x ++ ',' :: stringifyElems (y :: xs)

/-- Comma-separated printing of object members. -/
def stringifyMembers : List (Str × JsonValue) → Str
  | [] => []
  | [(k, v)] => '"' :: (escapeString k ++ '"' :: ':' :: jsonStringify v)
  | (k, v) :: kv :: fs =>
    ('"' :: (escapeString k ++ '"' :: ':' :: jsonStringify v)) ++ ',' :: stringifyMembers (kv :: fs)

end

/-- One step of JSON value parsing, parameterized by the continuations used
for the elements of a non-empty array and the members of a non-empty object. -/
def parseValueF (pe : Str → List JsonValue → Option (JsonValue × Str))
    (pm : Str → List (Str × JsonValue) → Option (JsonValue × Str))
    (input : Str) : Option (JsonValue × Str) :=
  match input with
  | [] => none
  | c :: rest =>
    if c = 'n' then
      match rest with
      | 'u' :: 'l' :: 'l' :: r => some (.null, r)
      | _ => none
    else if c = 't' then
      match rest with
      | 'r' :: 'u' :: 'e' :: r => some (.bool true, r)
      | _ => none
    else if c = 'f' then
      match rest with
      | 'a' :: 'l' :: 's' :: 'e' :: r => some (.bool false, r)
      | _ => none
    else if c = '"' then
      match parseStringBody rest with
      | some (s, r) => some (.str s, r)
      | none => none
    else if c = '[' then
      match rest with
      | [] => none
      | r0 :: rr => if r0 = ']' then some (.arr [], rr) else pe (r0 :: rr) []
    else if c = '\x7b' then
      match rest with
      | [] => none
      | r0 :: rr => if r0 = '\x7d' then some (.obj [], rr) else pm (r0 :: rr) []
    else
      match parseNumber (c :: rest) with
      | some (k, r) => some (.num k, r)
      | none => none

/-- One step of parsing the remaining elements of a non-empty array,
parameterized by the value parser and the element continuation. -/
def parseElemsF (pv : Str → Option (JsonValue × Str))
    (pe : Str → List JsonValue → Option (JsonValue × Str))
    (input : Str) (acc : List JsonValue) : Option (JsonValue × Str) :=
  match pv input with
  | none => none
  | some (v, r) =>
    match r with
    | [] => none
    | r0 :: rr =>
      if r0 = ',' then pe rr (acc ++ [v])
      else if r0 = ']' then some (.arr (acc ++ [v]), rr)
      else none

/-- One step of parsing the remaining members of a non-empty object,
parameterized by the value parser and the member continuation. -/
def parseMembersF (pv : Str → Option (JsonValue × Str))
    (pm : Str → List (Str × JsonValue) → Option (JsonValue × Str))
    (input : Str) (acc : List (Str × JsonValue)) : Option (JsonValue × Str) :=
  match input with
  | [] => none
  | c0 :: rest =>
    if c0 = '"' then
      match parseStringBody rest with
      | none => none
      | some (k, r) =>
        match r with
        | ':' :: r2 =>
          match pv r2 with
          | none => none
          | some (v, r3) =>
            match r3 with
            | [] => none
            | r4 :: rr =>
              if r4 = ',' then pm rr (acc ++ [(k, v)])
              else if r4 = '\x7d' then some (.obj (acc ++ [(k, v)]), rr)
              else none
        | _ => none
    else none

mutual

/-- Fuelled recursive-descent JSON value parser. -/
def parseValue : Nat → Str → Option (JsonValue × Str)
  | 0, _ => none
  | Nat.succ fuel, input =>
    parseValueF (fun s a => parseElems fuel s a) (fun s a => parseMembers fuel s a) input

/-- Parse the remaining elements of a non-empty array. -/
def parseElems : Nat → Str → List JsonValue → Option (JsonValue × Str)
  | 0, _, _ => none
  | Nat.succ fuel, input, acc =>
    parseElemsF (fun s => parseValue fuel s) (fun s a => parseElems fuel s a) input acc

/-- Parse the remaining members of a non-empty object. -/
def parseMembers : Nat → Str → List (Str × JsonValue) → Option (JsonValue × Str)
  | 0, _, _ => none
  | Nat.succ fuel, input, acc =>
    parseMembersF (fun s => parseValue fuel s) (fun s a => parseMembers fuel s a) input acc

end

mutual

/-- Fuel requirement of a JSON value for `parseValue`. -/
def jsize : JsonValue → Nat
  | .null => 1
  | .bool _ => 1
  | .num _ => 1
  | .str _ => 1
  | .arr xs => 2 + jsizeElems xs
  | .obj fs => 2 + jsizeMembers fs

/-- Fuel requirement of array elements. -/
def jsizeElems : List JsonValue → Nat
  | [] => 0
  | x :: xs => jsize x + 1 + jsizeElems xs

/-- Fuel requirement of object members. -/
def jsizeMembers : List (Str × JsonValue) → Nat
  | [] => 0
  | kv :: fs => jsize kv.2 + 1 + jsizeMembers fs

end

/-- Parse a complete JSON document: the whole input must be consumed, as
`JSON.parse` requires. -/
def jsonParse (s : Str) : Option JsonValue :=
  match parseValue (2 * s.length + 1) s with
  | some (v, []) => some v
  | _ => none

theorem hexVal?_hexDigitChar (d : Nat) (h : d < 16) : hexVal? (hexDigitChar d) = some d := by
  interval_cases d <;> rfl

theorem digitVal?_digitChar (d : Nat) (h : d < 10) : digitVal? (digitChar d) = some d := by
  interval_cases d <;> rfl

theorem parseStringBody_quote (r : Str) : parseStringBody ('"' :: r) = some ([], r) := by
  rw [parseStringBody.eq_def]
  simp

theorem parseStringBody_shortEsc (e c2 : Char) (he : unescapeChar e = some c2)
    (hu : ¬ e = 'u') (X cs r : Str) (h : parseStringBody X = some (cs, r)) :
    parseStringBody ('\\' :: e :: X) = some (c2 :: cs, r) := by
  rw [parseStringBody.eq_def]
  simp [hu, he, h]

theorem parseStringBody_plain (c : Char) (h1 : ¬ c = '"') (h2 : ¬ c = '\\')
    (X cs r : Str) (h : parseStringBody X = some (cs, r)) :
    parseStringBody (c :: X) = some (c :: cs, r) := by
  rw [parseStringBody.eq_def]
  simp [h1, h2, h]

theorem parseStringBody_uEsc (t : Nat) (ht : t < 0x20) (X cs r : Str)
    (h : parseStringBody X = some (cs, r)) :
    parseStringBody ('\\' :: 'u' :: '0' :: '0' :: hexDigitChar (t / 16)
      :: hexDigitChar (t % 16) :: X) = some (Char.ofNat t :: cs, r) := by
  have hv1 : hexVal? (hexDigitChar (t / 16)) = some (t / 16) :=
    hexVal?_hexDigitChar _ (by omega)
  have hv2 : hexVal? (hexDigitChar (t % 16)) = some (t % 16) :=
    hexVal?_hexDigitChar _ (by omega)
  have h0 : hexVal? '0' = some 0 := rfl
  rw [parseStringBody.eq_def]
  simp only [reduceIte, h0, hv1, hv2]
  have hn : ((0 * 16 + 0) * 16 + t / 16) * 16 + t % 16 = t := by omega
  rw [hn]
  have hvalid : t.isValidChar := Or.inl (by omega)
  rw [dif_pos hvalid, h]
  simp

theorem parseStringBody_escape (s : Str) : ∀ rest,
    parseStringBody (escapeString s ++ ('"' :: rest)) = some (s, rest) := by
  induction s with
  | nil => intro rest; simp only [escapeString, List.nil_append]; exact parseStringBody_quote rest
  | cons c cs ih =>
    intro rest
    have hstep : escapeString (c :: cs) ++ ('"' :: rest)
        = escapeChar c ++ (escapeString cs ++ ('"' :: rest)) := by
      simp [escapeString]
    rw [hstep]
    by_cases h1 : c = '"'
    · subst h1
      simpa [escapeChar] using
        parseStringBody_shortEsc '"' '"' rfl (by decide) _ _ _ (ih rest)
    · by_cases h2 : c = '\\'
      · subst h2
        simpa [escapeChar] using
          parseStringBody_shortEsc '\\' '\\' rfl (by decide) _ _ _ (ih rest)
      · by_cases h3 : c = '\x08'
        · subst h3
          simpa [escapeChar] using
            parseStringBody_shortEsc 'b' '\x08' rfl (by decide) _ _ _ (ih rest)
        · by_cases h4 : c = '\t'
          · subst h4
            simpa [escapeChar] using
              parseStringBody_shortEsc 't' '\t' rfl (by decide) _ _ _ (ih rest)
          · by_cases h5 : c = '\n'
            · subst h5
              simpa [escapeChar] using
                parseStringBody_shortEsc 'n' '\n' rfl (by decide) _ _ _ (ih rest)
            · by_cases h6 : c = '\x0c'
              · subst h6
                simpa [escapeChar] using
                  parseStringBody_shortEsc 'f' '\x0c' rfl (by decide) _ _ _ (ih rest)
              · by_cases h7 : c = '\r'
                · subst h7
                  simpa [escapeChar] using
                    parseStringBody_shortEsc 'r' '\r' rfl (by decide) _ _ _ (ih rest)
                · by_cases h8 : c.toNat < 0x20
                  · have hesc : escapeChar c = ['\\', 'u', '0', '0',
                        hexDigitChar (c.toNat / 16), hexDigitChar (c.toNat % 16)] := by
                      simp [escapeChar, h1, h2, h3, h4, h5, h6, h7, h8]
                    rw [hesc]
                    have := parseStringBody_uEsc c.toNat h8 _ _ _ (ih rest)
                    rw [Char.ofNat_toNat] at this
                    simpa using this
                  · have hesc : escapeChar c = [c] := by
                      simp [escapeChar, h1, h2, h3, h4, h5, h6, h7, h8]
                    rw [hesc]
                    simpa using parseStringBody_plain c h1 h2 _ _ _ (ih rest)

/-- The remaining input may not start with a digit (so that number parsing in
front of it is not greedy beyond the printed digits). -/
def restOk : Str → Bool
  | [] => true
  | c :: _ => (digitVal? c).isNone

/-- Accumulator step of decimal digit reading. -/
def digitStep (a : Nat) (c : Char) : Nat := a * 10 + (digitVal? c).getD 0

theorem natToChars_all_digits (n : Nat) :
    (natToChars n).all (fun c => (digitVal? c).isSome) = true := by
  induction n using Nat.strong_induction_on with
  | _ n ih =>
    rw [natToChars]
    by_cases h : n < 10
    · simp [h, digitVal?_digitChar n h]
    · rw [dif_neg h]
      simp only [List.all_append]
      rw [ih (n / 10) (Nat.div_lt_self (by omega) (by omega))]
      simp [digitVal?_digitChar (n % 10) (by omega)]

theorem natToChars_head (n : Nat) :
    ∃ d tl, natToChars n = digitChar d :: tl ∧ d < 10 := by
  induction n using Nat.strong_induction_on with
  | _ n ih =>
    rw [natToChars]
    by_cases h : n < 10
    · exact ⟨n, [], by simp [h], h⟩
    · rw [dif_neg h]
      obtain ⟨d, tl, heq, hd⟩ := ih (n / 10) (Nat.div_lt_self (by omega) (by omega))
      exact ⟨d, tl ++ [digitChar (n % 10)], by simp [heq], hd⟩

theorem natToChars_foldl (n : Nat) : ∀ acc,
    (natToChars n).foldl digitStep acc = acc * 10 ^ (natToChars n).length + n := by
  induction n using Nat.strong_induction_on with
  | _ n ih =>
    intro acc
    rw [natToChars]
    by_cases h : n < 10
    · simp [h, digitStep, digitVal?_digitChar n h]
    · rw [dif_neg h]
      rw [List.foldl_append, ih (n / 10) (Nat.div_lt_self (by omega) (by omega)) acc]
      simp only [List.foldl_cons, List.foldl_nil, List.length_append, List.length_cons,
        List.length_nil]
      rw [digitStep, digitVal?_digitChar (n % 10) (by omega)]
      have hmod : (some (n % 10)).getD 0 = n % 10 := rfl
      rw [hmod]
      have hpow : 10 ^ ((natToChars (n / 10)).length + (0 + 1))
          = 10 ^ (natToChars (n / 10)).length * 10 := by
        rw [Nat.zero_add, Nat.pow_succ]
      rw [hpow]
      have hdm := Nat.div_add_mod n 10
      set L := 10 ^ (natToChars (n / 10)).length with hL
      calc (acc * L + n / 10) * 10 + n % 10
          = acc * (L * 10) + (n / 10 * 10 + n % 10) := by ring
        _ = acc * (L * 10) + n := by omega

theorem readDigits_append (ds : Str) (hds : ds.all (fun c => (digitVal? c).isSome) = true)
    (rest : Str) (hrest : restOk rest = true) (acc : Nat) :
    readDigits acc (ds ++ rest) = (ds.foldl digitStep acc, rest) := by
  induction ds generalizing acc with
  | nil =>
    simp only [List.nil_append, List.foldl_nil]
    cases rest with
    | nil => rfl
    | cons c r =>
      rw [readDigits]
      simp only [restOk] at hrest
      cases hv : digitVal? c with
      | none => rfl
      | some d => rw [hv] at hrest; simp at hrest
  | cons c ds ih =>
    simp only [List.all_cons, Bool.and_eq_true] at hds
    obtain ⟨hc, hds'⟩ := hds
    cases hv : digitVal? c with
    | none => rw [hv] at hc; simp at hc
    | some d =>
      simp only [List.cons_append, List.foldl_cons]
      rw [readDigits, hv]
      simp [ih hds', digitStep, hv]

theorem readNat_natToChars (n : Nat) (rest : Str) (hrest : restOk rest = true) :
    readNat (natToChars n ++ rest) = some (n, rest) := by
  obtain ⟨d, tl, heq, hd⟩ := natToChars_head n
  have hall := natToChars_all_digits n
  rw [heq] at hall
  simp only [List.all_cons, Bool.and_eq_true] at hall
  obtain ⟨_, htl⟩ := hall
  rw [heq, List.cons_append, readNat, digitVal?_digitChar d hd]
  simp only [readDigits_append tl htl rest hrest]
  have hfold : (natToChars n).foldl digitStep 0 = n := by
    have := natToChars_foldl n 0
    simpa using this
  rw [heq] at hfold
  simp only [List.foldl_cons] at hfold
  have hstep : digitStep 0 (digitChar d) = d := by
    simp [digitStep, digitVal?_digitChar d hd]
  rw [hstep] at hfold
  rw [hfold]

theorem digitChar_ne (d : Nat) (hd : d < 10) :
    digitChar d ≠ 'n' ∧ digitChar d ≠ 't' ∧ digitChar d ≠ 'f' ∧ digitChar d ≠ '"'
    ∧ digitChar d ≠ '[' ∧ digitChar d ≠ '\x7b' ∧ digitChar d ≠ '-' ∧ digitChar d ≠ ']' := by
  interval_cases d <;> exact ⟨by decide, by decide, by decide, by decide, by decide,
    by decide, by decide, by decide⟩

theorem parseNumber_intToChars (k : Int) (rest : Str) (hrest : restOk rest = true) :
    parseNumber (intToChars k ++ rest) = some (k, rest) := by
  by_cases hk : k < 0
  · rw [intToChars, if_pos hk, List.cons_append, parseNumber.eq_def]
    have hrn : readNat (natToChars k.natAbs ++ rest) = some (k.natAbs, rest) :=
      readNat_natToChars k.natAbs rest hrest
    have hcast : -((k.natAbs : Nat) : Int) = k := by omega
    simp [hrn, hcast]
    rw [abs_of_neg hk, neg_neg]
  · rw [intToChars, if_neg hk]
    obtain ⟨d, tl, heq, hd⟩ := natToChars_head k.toNat
    have hne : digitChar d ≠ '-' := (digitChar_ne d hd).2.2.2.2.2.2.1
    rw [heq, List.cons_append, parseNumber.eq_def]
    have hrn : readNat (digitChar d :: (tl ++ rest)) = some (k.toNat, rest) := by
      rw [← List.cons_append, ← heq]
      exact readNat_natToChars k.toNat rest hrest
    have hcast : ((k.toNat : Nat) : Int) = k := by omega
    simp [hne, hrn, hcast]

set_option maxHeartbeats 2000000 in
theorem jsonStringify_null : jsonStringify .null = ['n', 'u', 'l', 'l'] := by
  simp [jsonStringify]

theorem jsonStringify_true : jsonStringify (.bool true) = ['t', 'r', 'u', 'e'] := by
  simp [jsonStringify]

theorem jsonStringify_false : jsonStringify (.bool false) = ['f', 'a', 'l', 's', 'e'] := by
  simp [jsonStringify]

theorem jsonStringify_num (k : Int) : jsonStringify (.num k) = intToChars k := by
  simp [jsonStringify]

theorem jsonStringify_str (s : Str) :
    jsonStringify (.str s) = '"' :: (escapeString s ++ ['"']) := by
  simp [jsonStringify]

theorem jsonStringify_arr (xs : List JsonValue) :
    jsonStringify (.arr xs) = '[' :: (stringifyElems xs ++ [']']) := by
  simp [jsonStringify]

theorem jsonStringify_obj (fs : List (Str × JsonValue)) :
    jsonStringify (.obj fs) = '\x7b' :: (stringifyMembers fs ++ ['\x7d']) := by
  simp [jsonStringify]

theorem stringifyElems_nil : stringifyElems [] = [] := by
  simp [stringifyElems]

theorem stringifyElems_single (x : JsonValue) : stringifyElems [x] = jsonStringify x := by
  simp [stringifyElems]

theorem stringifyElems_cons (x y : JsonValue) (ys : List JsonValue) :
    stringifyElems (x :: y :: ys) = jsonStringify x ++ ',' :: stringifyElems (y :: ys) := by
  simp [stringifyElems]

theorem stringifyMembers_nil : stringifyMembers [] = [] := by
  simp [stringifyMembers]

theorem stringifyMembers_single (k : Str) (v : JsonValue) :
    stringifyMembers [(k, v)] = '"' :: (escapeString k ++ '"' :: ':' :: jsonStringify v) := by
  simp [stringifyMembers]

theorem stringifyMembers_cons (k : Str) (v : JsonValue) (kv : Str × JsonValue)
    (fs : List (Str × JsonValue)) :
    stringifyMembers ((k, v) :: kv :: fs)
      = ('"' :: (escapeString k ++ '"' :: ':' :: jsonStringify v)) ++ ',' :: stringifyMembers (kv :: fs) := by
  simp [stringifyMembers]

theorem jsize_null : jsize .null = 1 := by simp [jsize]

theorem jsize_bool (b : Bool) : jsize (.bool b) = 1 := by simp [jsize]

theorem jsize_num (k : Int) : jsize (.num k) = 1 := by simp [jsize]

theorem jsize_str (s : Str) : jsize (.str s) = 1 := by simp [jsize]

theorem jsize_arr (xs : List JsonValue) : jsize (.arr xs) = 2 + jsizeElems xs := by
  simp [jsize]

theorem jsize_obj (fs : List (Str × JsonValue)) : jsize (.obj fs) = 2 + jsizeMembers fs := by
  simp [jsize]

theorem jsizeElems_nil : jsizeElems [] = 0 := by simp [jsizeElems]

theorem jsizeElems_cons (x : JsonValue) (xs : List JsonValue) :
    jsizeElems (x :: xs) = jsize x + 1 + jsizeElems xs := by
  simp [jsizeElems]

theorem jsizeMembers_nil : jsizeMembers [] = 0 := by simp [jsizeMembers]

theorem jsizeMembers_cons (kv : Str × JsonValue) (fs : List (Str × JsonValue)) :
    jsizeMembers (kv :: fs) = jsize kv.2 + 1 + jsizeMembers fs := by
  simp [jsizeMembers]

theorem jsize_pos (v : JsonValue) : 1 ≤ jsize v := by
  cases v with
  | null => rw [jsize_null]
  | bool b => rw [jsize_bool]
  | num k => rw [jsize_num]
  | str s => rw [jsize_str]
  | arr xs => rw [jsize_arr]; omega
  | obj fs => rw [jsize_obj]; omega

theorem jsonStringify_head (v : JsonValue) :
    ∃ c cs, jsonStringify v = c :: cs ∧ c ≠ ']' := by
  cases v with
  | null => exact ⟨'n', _, jsonStringify_null, by decide⟩
  | bool b =>
    cases b with
    | false => exact ⟨'f', _, jsonStringify_false, by decide⟩
    | true => exact ⟨'t', _, jsonStringify_true, by decide⟩
  | num k =>
    rw [jsonStringify_num, intToChars]
    by_cases hk : k < 0
    · exact ⟨'-', _, by rw [if_pos hk], by decide⟩
    · obtain ⟨d, tl, heq, hd⟩ := natToChars_head k.toNat
      exact ⟨digitChar d, tl, by rw [if_neg hk, heq], (digitChar_ne d hd).2.2.2.2.2.2.2⟩
  | str s => exact ⟨'"', _, jsonStringify_str s, by decide⟩
  | arr xs => exact ⟨'[', _, jsonStringify_arr xs, by decide⟩
  | obj fs => exact ⟨'\x7b', _, jsonStringify_obj fs, by decide⟩

theorem stringifyElems_head (x : JsonValue) (xs : List JsonValue) :
    ∃ c cs, stringifyElems (x :: xs) = c :: cs ∧ c ≠ ']' := by
  obtain ⟨c, cs, heq, hne⟩ := jsonStringify_head x
  cases xs with
  | nil => exact ⟨c, cs, by rw [stringifyElems_single, heq], hne⟩
  | cons y ys =>
    exact ⟨c, cs ++ ',' :: stringifyElems (y :: ys),
      by rw [stringifyElems_cons, heq]; simp, hne⟩

theorem stringifyMembers_head (kv : Str × JsonValue) (fs : List (Str × JsonValue)) :
    ∃ cs, stringifyMembers (kv :: fs) = '"' :: cs := by
  obtain ⟨k, v⟩ := kv
  cases fs with
  | nil => exact ⟨_, stringifyMembers_single k v⟩
  | cons kv2 fs' =>
    exact ⟨(escapeString k ++ '"' :: ':' :: jsonStringify v) ++ ',' :: stringifyMembers (kv2 :: fs'),
      by rw [stringifyMembers_cons]; simp⟩

theorem parseValue_succ (fuel : Nat) (input : Str) :
    parseValue (fuel + 1) input
      = parseValueF (fun s a => parseElems fuel s a) (fun s a => parseMembers fuel s a) input := by
  simp [parseValue]

theorem parseElems_succ (fuel : Nat) (input : Str) (acc : List JsonValue) :
    parseElems (fuel + 1) input acc
      = parseElemsF (fun s => parseValue fuel s) (fun s a => parseElems fuel s a) input acc := by
  simp [parseElems]

theorem parseMembers_succ (fuel : Nat) (input : Str) (acc : List (Str × JsonValue)) :
    parseMembers (fuel + 1) input acc
      = parseMembersF (fun s => parseValue fuel s) (fun s a => parseMembers fuel s a) input acc := by
  simp [parseMembers]

theorem parseValue_succ_null (fuel : Nat) (r : Str) :
    parseValue (fuel + 1) ('n' :: 'u' :: 'l' :: 'l' :: r) = some (.null, r) := by
  rw [parseValue_succ]
  rfl

theorem parseValue_succ_true (fuel : Nat) (r : Str) :
    parseValue (fuel + 1) ('t' :: 'r' :: 'u' :: 'e' :: r) = some (.bool true, r) := by
  rw [parseValue_succ]
  rfl

theorem parseValue_succ_false (fuel : Nat) (r : Str) :
    parseValue (fuel + 1) ('f' :: 'a' :: 'l' :: 's' :: 'e' :: r) = some (.bool false, r) := by
  rw [parseValue_succ]
  rfl

theorem parseValue_succ_str (fuel : Nat) (r s pr : Str)
    (h : parseStringBody r = some (s, pr)) :
    parseValue (fuel + 1) ('"' :: r) = some (.str s, pr) := by
  rw [parseValue_succ]
  simp [parseValueF, h]

theorem parseValue_succ_arrNil (fuel : Nat) (r : Str) :
    parseValue (fuel + 1) ('[' :: ']' :: r) = some (.arr [], r) := by
  rw [parseValue_succ]
  rfl

theorem parseValue_succ_arrCons (fuel : Nat) (c0 : Char) (rr : Str) (h : ¬ c0 = ']') :
    parseValue (fuel + 1) ('[' :: c0 :: rr) = parseElems fuel (c0 :: rr) [] := by
  rw [parseValue_succ]
  simp [parseValueF, h]

theorem parseValue_succ_objNil (fuel : Nat) (r : Str) :
    parseValue (fuel + 1) ('\x7b' :: '\x7d' :: r) = some (.obj [], r) := by
  rw [parseValue_succ]
  rfl

theorem parseValue_succ_objCons (fuel : Nat) (c0 : Char) (rr : Str) (h : ¬ c0 = '\x7d') :
    parseValue (fuel + 1) ('\x7b' :: c0 :: rr) = parseMembers fuel (c0 :: rr) [] := by
  rw [parseValue_succ]
  simp [parseValueF, h]

theorem parseValue_succ_default (fuel : Nat) (c : Char) (r : Str)
    (h1 : ¬ c = 'n') (h2 : ¬ c = 't') (h3 : ¬ c = 'f') (h4 : ¬ c = '"')
    (h5 : ¬ c = '[') (h6 : ¬ c = '\x7b') :
    parseValue (fuel + 1) (c :: r)
      = match parseNumber (c :: r) with
        | some (k, pr) => some (.num k, pr)
        | none => none := by
  rw [parseValue_succ]
  simp [parseValueF, h1, h2, h3, h4, h5, h6]

theorem parseElems_succ_comma (fuel : Nat) (input : Str) (acc : List JsonValue)
    (v : JsonValue) (rr : Str) (h : parseValue fuel input = some (v, ',' :: rr)) :
    parseElems (fuel + 1) input acc = parseElems fuel rr (acc ++ [v]) := by
  rw [parseElems_succ]
  simp [parseElemsF, h]

theorem parseElems_succ_rbracket (fuel : Nat) (input : Str) (acc : List JsonValue)
    (v : JsonValue) (rr : Str) (h : parseValue fuel input = some (v, ']' :: rr)) :
    parseElems (fuel + 1) input acc = some (.arr (acc ++ [v]), rr) := by
  rw [parseElems_succ]
  simp [parseElemsF, h]

theorem parseMembers_succ_comma (fuel : Nat) (rest r2 : Str) (acc : List (Str × JsonValue))
    (k : Str) (v : JsonValue) (rr : Str)
    (hs : parseStringBody rest = some (k, ':' :: r2))
    (hv : parseValue fuel r2 = some (v, ',' :: rr)) :
    parseMembers (fuel + 1) ('"' :: rest) acc = parseMembers fuel rr (acc ++ [(k, v)]) := by
  rw [parseMembers_succ]
  simp [parseMembersF, hs, hv]

theorem parseMembers_succ_rbrace (fuel : Nat) (rest r2 : Str) (acc : List (Str × JsonValue))
    (k : Str) (v : JsonValue) (rr : Str)
    (hs : parseStringBody rest = some (k, ':' :: r2))
    (hv : parseValue fuel r2 = some (v, '\x7d' :: rr)) :
    parseMembers (fuel + 1) ('"' :: rest) acc = some (.obj (acc ++ [(k, v)]), rr) := by
  rw [parseMembers_succ]
  simp [parseMembersF, hs, hv]

/-- Main parser/printer agreement, proved for all three mutual parsing
functions simultaneously by induction on the fuel. -/
theorem parse_stringify_all : ∀ fuel : Nat,
    (∀ v rest, jsize v ≤ fuel → restOk rest = true →
      parseValue fuel (jsonStringify v ++ rest) = some (v, rest))
    ∧ (∀ x xs acc rest, jsizeElems (x :: xs) + 1 ≤ fuel →
      parseElems fuel (stringifyElems (x :: xs) ++ (']' :: rest)) acc
        = some (.arr (acc ++ x :: xs), rest))
    ∧ (∀ kv fs acc rest, jsizeMembers (kv :: fs) + 1 ≤ fuel →
      parseMembers fuel (stringifyMembers (kv :: fs) ++ ('\x7d' :: rest)) acc
        = some (.obj (acc ++ kv :: fs), rest)) := by
  intro fuel
  induction fuel with
  | zero =>
    refine ⟨fun v rest hs _ => absurd hs ?_, fun x xs acc rest hs => absurd hs (by omega),
      fun kv fs acc rest hs => absurd hs (by omega)⟩
    have := jsize_pos v
    omega
  | succ fuel ih =>
    obtain ⟨ihP, ihQ, ihR⟩ := ih
    refine ⟨?_, ?_, ?_⟩
    · -- parseValue inverts jsonStringify
      intro v rest hsize hrest
      cases v with
      | null =>
        rw [jsonStringify_null]
        exact parseValue_succ_null fuel rest
      | bool b =>
        cases b with
        | true =>
          rw [jsonStringify_true]
          exact parseValue_succ_true fuel rest
        | false =>
          rw [jsonStringify_false]
          exact parseValue_succ_false fuel rest
      | num k =>
        rw [jsonStringify_num]
        have hpn := parseNumber_intToChars k rest hrest
        by_cases hk : k < 0
        · rw [intToChars, if_pos hk] at hpn ⊢
          rw [List.cons_append] at hpn ⊢
          rw [parseValue_succ_default fuel '-' _ (by decide) (by decide) (by decide)
            (by decide) (by decide) (by decide), hpn]
        · rw [intToChars, if_neg hk] at hpn ⊢
          obtain ⟨d, tl, heq, hd⟩ := natToChars_head k.toNat
          have hne := digitChar_ne d hd
          rw [heq, List.cons_append] at hpn ⊢
          rw [parseValue_succ_default fuel (digitChar d) _ hne.1 hne.2.1 hne.2.2.1
            hne.2.2.2.1 hne.2.2.2.2.1 hne.2.2.2.2.2.1, hpn]
      | str s =>
        rw [jsonStringify_str]
        have hps := parseStringBody_escape s rest
        simp only [List.cons_append, List.append_assoc, List.nil_append]
        exact parseValue_succ_str fuel _ s rest hps
      | arr xs =>
        cases xs with
        | nil =>
          rw [jsonStringify_arr, stringifyElems_nil]
          simp only [List.cons_append, List.nil_append]
          exact parseValue_succ_arrNil fuel rest
        | cons x xs' =>
          rw [jsonStringify_arr]
          have harith : jsizeElems (x :: xs') + 1 ≤ fuel := by
            rw [jsize_arr] at hsize
            omega
          have hq := ihQ x xs' [] rest harith
          obtain ⟨c0, S', hS, hc0⟩ := stringifyElems_head x xs'
          rw [hS, List.cons_append] at hq
          rw [hS]
          simp only [List.cons_append, List.append_assoc, List.nil_append]
          rw [parseValue_succ_arrCons fuel c0 _ hc0]
          simpa using hq
      | obj fs =>
        cases fs with
        | nil =>
          rw [jsonStringify_obj, stringifyMembers_nil]
          simp only [List.cons_append, List.nil_append]
          exact parseValue_succ_objNil fuel rest
        | cons kv fs' =>
          rw [jsonStringify_obj]
          have harith : jsizeMembers (kv :: fs') + 1 ≤ fuel := by
            rw [jsize_obj] at hsize
            omega
          have hr := ihR kv fs' [] rest harith
          obtain ⟨cs, hS⟩ := stringifyMembers_head kv fs'
          rw [hS, List.cons_append] at hr
          rw [hS]
          simp only [List.cons_append, List.append_assoc, List.nil_append]
          rw [parseValue_succ_objCons fuel '"' _ (by decide)]
          simpa using hr
    · -- parseElems inverts stringifyElems
      intro x xs acc rest hs
      cases xs with
      | nil =>
        rw [stringifyElems_single]
        have harith : jsize x ≤ fuel := by
          rw [jsizeElems_cons, jsizeElems_nil] at hs
          omega
        have hp := ihP x (']' :: rest) harith (by rfl)
        rw [parseElems_succ_rbracket fuel _ acc x rest hp]
      | cons y ys =>
        rw [stringifyElems_cons]
        have harith : jsize x ≤ fuel := by
          rw [jsizeElems_cons, jsizeElems_cons] at hs
          have := jsize_pos y
          omega
        have harith2 : jsizeElems (y :: ys) + 1 ≤ fuel := by
          rw [jsizeElems_cons] at hs
          have := jsize_pos x
          omega
        have hp := ihP x (',' :: (stringifyElems (y :: ys) ++ (']' :: rest))) harith (by rfl)
        have hq := ihQ y ys (acc ++ [x]) rest harith2
        simp only [List.cons_append, List.append_assoc, List.nil_append]
        rw [parseElems_succ_comma fuel _ acc x _ hp, hq]
        simp
    · -- parseMembers inverts stringifyMembers
      intro kv fs acc rest hs
      obtain ⟨k, v⟩ := kv
      cases fs with
      | nil =>
        rw [stringifyMembers_single]
        have harith : jsize v ≤ fuel := by
          rw [jsizeMembers_cons, jsizeMembers_nil] at hs
          have hkv : jsize ((k, v)).2 = jsize v := rfl
          rw [hkv] at hs
          omega
        have hk := parseStringBody_escape k (':' :: (jsonStringify v ++ ('\x7d' :: rest)))
        have hv := ihP v ('\x7d' :: rest) harith (by rfl)
        simp only [List.cons_append, List.append_assoc, List.nil_append]
        rw [parseMembers_succ_rbrace fuel _ _ acc k v rest hk hv]
      | cons kv2 fs' =>
        rw [stringifyMembers_cons]
        have hkv : jsize ((k, v)).2 = jsize v := rfl
        have harith : jsize v ≤ fuel := by
          rw [jsizeMembers_cons, jsizeMembers_cons] at hs
          rw [hkv] at hs
          have := jsize_pos kv2.2
          omega
        have harith2 : jsizeMembers (kv2 :: fs') + 1 ≤ fuel := by
          rw [jsizeMembers_cons] at hs
          rw [hkv] at hs
          have := jsize_pos v
          omega
        have hk := parseStringBody_escape k
          (':' :: (jsonStringify v ++ (',' :: (stringifyMembers (kv2 :: fs') ++ ('\x7d' :: rest)))))
        have hv := ihP v (',' :: (stringifyMembers (kv2 :: fs') ++ ('\x7d' :: rest))) harith (by rfl)
        have hr := ihR kv2 fs' (acc ++ [(k, v)]) rest harith2
        simp only [List.cons_append, List.append_assoc, List.nil_append]
        rw [parseMembers_succ_comma fuel _ _ acc k v _ hk hv, hr]
        simp

theorem sizeOf_json_pos (v : JsonValue) : 0 < sizeOf v := by
  cases v <;> simp

/-- The fuel requirement of a value is at most twice its printed length,
proved for all three size functions simultaneously by strong induction on
the structural size. -/
theorem jsize_le_stringify_all : ∀ n : Nat,
    (∀ v : JsonValue, sizeOf v ≤ n → jsize v ≤ 2 * (jsonStringify v).length)
    ∧ (∀ xs : List JsonValue, sizeOf xs ≤ n →
        jsizeElems xs ≤ 2 * (stringifyElems xs).length + 1)
    ∧ (∀ fs : List (Str × JsonValue), sizeOf fs ≤ n →
        jsizeMembers fs ≤ 2 * (stringifyMembers fs).length + 1) := by
  intro n
  induction n with
  | zero =>
    refine ⟨fun v hv => absurd hv ?_, fun xs hxs => absurd hxs ?_, fun fs hfs => absurd hfs ?_⟩
    · have := sizeOf_json_pos v
      omega
    · cases xs <;> simp
    · cases fs <;> simp
  | succ n ih =>
    obtain ⟨ihV, ihE, ihM⟩ := ih
    refine ⟨?_, ?_, ?_⟩
    · intro v hv
      cases v with
      | null => rw [jsize_null, jsonStringify_null]; simp
      | bool b =>
        cases b with
        | true => rw [jsize_bool, jsonStringify_true]; simp
        | false => rw [jsize_bool, jsonStringify_false]; simp
      | num k =>
        rw [jsize_num, jsonStringify_num, intToChars]
        by_cases hk : k < 0
        · rw [if_pos hk]
          simp
          omega
        · rw [if_neg hk]
          obtain ⟨d, tl, heq, _⟩ := natToChars_head k.toNat
          rw [heq]
          simp
          omega
      | str s =>
        rw [jsize_str, jsonStringify_str]
        simp
        omega
      | arr xs =>
        rw [jsize_arr, jsonStringify_arr]
        have hsz : sizeOf xs ≤ n := by
          have : sizeOf (JsonValue.arr xs) = 1 + sizeOf xs := by simp
          omega
        have := ihE xs hsz
        simp only [List.length_cons, List.length_append, List.length_nil]
        omega
      | obj fs =>
        rw [jsize_obj, jsonStringify_obj]
        have hsz : sizeOf fs ≤ n := by
          have : sizeOf (JsonValue.obj fs) = 1 + sizeOf fs := by simp
          omega
        have := ihM fs hsz
        simp only [List.length_cons, List.length_append, List.length_nil]
        omega
    · intro xs hxs
      cases xs with
      | nil => rw [jsizeElems_nil, stringifyElems_nil]; simp
      | cons x xs' =>
        have hszx : sizeOf x ≤ n := by
          have : sizeOf (x :: xs') = 1 + sizeOf x + sizeOf xs' := by simp
          have := sizeOf_json_pos x
          have hpos : 0 < sizeOf xs' := by cases xs' <;> simp
          omega
        cases xs' with
        | nil =>
          rw [jsizeElems_cons, jsizeElems_nil, stringifyElems_single]
          have := ihV x hszx
          omega
        | cons y ys =>
          have hsz' : sizeOf (y :: ys) ≤ n := by
            have : sizeOf (x :: y :: ys) = 1 + sizeOf x + sizeOf (y :: ys) := by simp
            have := sizeOf_json_pos x
            omega
          rw [jsizeElems_cons, stringifyElems_cons]
          have h1 := ihV x hszx
          have h2 := ihE (y :: ys) hsz'
          simp only [List.length_append, List.length_cons]
          omega
    · intro fs hfs
      cases fs with
      | nil => rw [jsizeMembers_nil, stringifyMembers_nil]; simp
      | cons kv fs' =>
        obtain ⟨k, v⟩ := kv
        have hszv : sizeOf v ≤ n := by
          have h1 : sizeOf ((k, v) :: fs') = 1 + sizeOf (k, v) + sizeOf fs' := by simp
          have h2 : sizeOf (k, v) = 1 + sizeOf k + sizeOf v := by simp
          have hpos : 0 < sizeOf fs' := by cases fs' <;> simp
          omega
        have hkv : jsize ((k, v)).2 = jsize v := rfl
        cases fs' with
        | nil =>
          rw [jsizeMembers_cons, jsizeMembers_nil, stringifyMembers_single, hkv]
          have := ihV v hszv
          simp only [List.length_cons, List.length_append]
          omega
        | cons kv2 fs'' =>
          have hsz' : sizeOf (kv2 :: fs'') ≤ n := by
            have h1 : sizeOf ((k, v) :: kv2 :: fs'') = 1 + sizeOf (k, v) + sizeOf (kv2 :: fs'') := by
              simp
            have h2 : 0 < sizeOf (k, v) := by simp
            omega
          rw [jsizeMembers_cons, stringifyMembers_cons, hkv]
          have h1 := ihV v hszv
          have h2 := ihM (kv2 :: fs'') hsz'
          simp only [List.length_append, List.length_cons]
          omega

theorem jsize_le_stringify (v : JsonValue) :
    jsize v ≤ 2 * (jsonStringify v).length :=
  (jsize_le_stringify_all (sizeOf v)).1 v (Nat.le_refl _)

/-- Round trip of the modelled `JSON` codec at the string level. -/
theorem jsonParse_stringify (v : JsonValue) : jsonParse (jsonStringify v) = some v := by
  have hfuel : jsize v ≤ 2 * (jsonStringify v).length + 1 := by
    have := jsize_le_stringify v
    omega
  have h := (parse_stringify_all (2 * (jsonStringify v).length + 1)).1 v [] hfuel (by rfl)
  rw [List.append_nil] at h
  rw [jsonParse, h]

/-! ## The serializer registry (src/index.js lines 23-48) -/

/-- A content-type codec: `serialize` to bytes, `deserialize` from bytes.
This is the shape of the entries of the module-level `serializers` object. -/
structure Serializer (α : Type) where
  serialize : α → List Nat
  deserialize : List Nat → Option α

/-- The seeded `application/json` serializer of `src/index.js`:
`serialize(object) = Buffer(JSON.stringify(object), "utf8")` and
`deserialize(bytes, encoding) = JSON.parse(bytes.toString(encoding || "utf8"))`,
taken at the default utf8 encoding; `JSON` and `Buffer` are JavaScript
built-ins, modelled above from the spec. -/
def applicationJson : Serializer JsonValue where
  serialize := fun o => utf8Encode (jsonStringify o)
  deserialize := fun bytes => (utf8Decode bytes).bind jsonParse

/-- The seeded `application/octet-stream` serializer of `src/index.js`: both
directions return the bytes unchanged. -/
def applicationOctetStream : Serializer (List Nat) where
  serialize := fun bytes => bytes
  deserialize := fun bytes => some bytes

/-- The seeded `text/plain` serializer of `src/index.js`:
`serialize(string) = Buffer(string, "utf8")` and
`deserialize(bytes, encoding) = bytes.toString(encoding || "utf8")`, taken at
the default utf8 encoding. -/
def textPlain : Serializer Str where
  serialize := fun s => utf8Encode s
  deserialize := fun bytes => utf8Decode bytes

/-- **C7.** For each of the three seeded content types — structured text
(`application/json`), raw-binary passthrough (`application/octet-stream`) and
plain text (`text/plain`) — deserializing a serialized value yields the value
back, for every value of that type's domain: every JSON-representable
structured value, every byte buffer, and every text string respectively. -/
theorem serializers_roundtrip :
    (∀ v : JsonValue, applicationJson.deserialize (applicationJson.serialize v) = some v)
    ∧ (∀ bytes : List Nat,
        applicationOctetStream.deserialize (applicationOctetStream.serialize bytes) = some bytes)
    ∧ (∀ s : Str, textPlain.deserialize (textPlain.serialize s) = some s) := by
  refine ⟨?_, ?_, ?_⟩
  · intro v
    show (utf8Decode (utf8Encode (jsonStringify v))).bind jsonParse = some v
    rw [utf8Decode_encode]
    simp [jsonParse_stringify]
  · intro bytes
    rfl
  · intro s
    exact utf8Decode_encode s

/-! ## The broker facade: state, effects and operations (src/index.js) -/

/-- A synchronously thrown JavaScript exception. -/
inductive JsError where
  | typeError (msg : String)
  | error (msg : String)
deriving DecidableEq, Repr

/-- Payload of a Monologue `this.emit(event, payload)` call. -/
inductive EmitPayload where
  | conn (name : String)
  | err (msg : String)
  | str (s : String)
deriving DecidableEq, Repr

/-- Observable side effects on the external collaborators. -/
inductive Effect where
  | emit (event : String) (payload : EmitPayload)
  | createConnection (name : String)
  | reconnect (name : String)
  | closeConnection (name : String) (reset : Bool)
  | warn (msg : String)
  | subscribeQueue (queue : String) (exclusive : Bool)
  | publishMessage (exchange : String) (conn : String)
  | dispatchSubscribe (topic : Str)
  | responsesSubscribe (requestId : Nat)
  | ackSignal
  | setTimer (ms : Nat)
  | stopTimer
  | configureApplied (name : String)
deriving DecidableEq, Repr

/-- Is the effect a `console.warn`? -/
def Effect.isWarn : Effect → Bool
  | .warn _ => true
  | _ => false

/-- Is the effect a `queue.subscribe`? -/
def Effect.isSubscribeQueue : Effect → Bool
  | .subscribeQueue _ _ => true
  | _ => false

/-- Connection options, as accepted by `addConnection`. -/
structure ConnectionOpts where
  name : Option String := none
  retryLimit : Option Nat := none
  failAfter : Option Nat := none
  publishTimeout : Option Nat := none
deriving DecidableEq, Repr

/-- JS `a || b` on an optional numeric field: `undefined` and `0` are falsy. -/
def jsOrNat (v : Option Nat) (d : Nat) : Nat :=
  match v with
  | none => d
  | some 0 => d
  | some n => n

/-- JS `a || b` on an optional string field: `undefined` and `""` are falsy. -/
def jsOrStr (v : Option String) (d : String) : String :=
  match v with
  | none => d
  | some s => if s = "" then d else s

/-- The external connection FSM handle produced by `connectionFn(options)`.
Modelled from the spec: `connectionFsm.js` is not part of the verified
sources; a connection carries its name and retry policy. -/
structure Connection where
  name : String
  retryLimit : Nat
  failAfter : Nat
deriving DecidableEq, Repr

/-- A channel object (exchange or queue) registered in a topology. -/
structure Channel where
  kind : String
  chanName : String
deriving DecidableEq, Repr

/-- A binding specification passed to `topology.createBinding`. -/
structure BindingSpec where
  source : String
  target : String
  keys : List String
  queue : Bool := false
deriving DecidableEq, Repr

/-- The per-connection `Topology` object produced by `topologyFn`. Modelled
from the spec (§4.2): `topology.js` is not part of the verified sources; a
topology is owned by one connection and holds a registry of channel objects
keyed by `"exchange:<name>"` / `"queue:<name>"` plus the declared bindings;
`reset()` clears the local channel registry only. -/
structure Topology where
  name : String
  connection : Option Connection
  options : ConnectionOpts
  channels : List (String × Channel) := []
  bindings : List BindingSpec := []
deriving DecidableEq, Repr

/-- The strategies of the module-level `unhandledStrategies` object
(src/index.js lines 12-21). -/
inductive UnhandledStrategy where
  | nackOnUnhandled
  | rejectOnUnhandled
  | customOnUnhandled
deriving DecidableEq, Repr

/-- The broker state: the fields assigned in the `Broker` constructor
(lines 50-57) together with the module-level mutable registries that the
instance aliases (`serializers`, here tracked as the set of registered
content types, and `unhandledStrategies.onUnhandled`), the ack-timer state
(`ackIntervalId` is the stored JS field, `ackTimerArmed` whether the external
interval timer is currently running) and the registered dispatch
subscriptions. -/
structure Broker where
  connections : List (String × Topology)
  hasHandles : Bool
  autoNack : Bool
  configurations : List (String × ConnectionOpts)
  serializers : List String
  unhandledStrategy : UnhandledStrategy
  subscriptions : List Str
  ackIntervalId : Option Nat
  ackTimerArmed : Bool
deriving DecidableEq, Repr

/-- `new Broker()` at module load: empty registries, no handles, no auto
nack, the three seeded serializers, nack-unhandled strategy, no timer. -/
def Broker.new : Broker where
  connections := []
  hasHandles := false
  autoNack := false
  configurations := []
  serializers := ["application/json", "application/octet-stream", "text/plain"]
  unhandledStrategy := .nackOnUnhandled
  subscriptions := []
  ackIntervalId := none
  ackTimerArmed := false

/-- Lines 60-64 of `addConnection`:
`var name = options ? (options.name || "default") : "default";
options = options || {}; options.name = name;
options.retryLimit = options.retryLimit || 3;
options.failAfter = options.failAfter || 60;`. -/
def resolveConnectionOptions (options? : Option ConnectionOpts) : ConnectionOpts :=
  let name := match options? with
    | some o => jsOrStr o.name "default"
    | none => "default"
  let o := options?.getD {}
  { o with name := some name
           retryLimit := some (jsOrNat o.retryLimit 3)
           failAfter := some (jsOrNat o.failAfter 60) }

/-- Modelled from the spec: `connectionFn(options)` (connectionFsm.js, not in
src/) constructs the external connection FSM from the resolved options. -/
def connectionFn (o : ConnectionOpts) : Connection where
  name := o.name.getD "default"
  retryLimit := o.retryLimit.getD 3
  failAfter := o.failAfter.getD 60

/-- Modelled from the spec: `topologyFn(connection, options, serializers,
unhandledStrategies)` (topology.js, not in src/) constructs the topology
owned by the connection, with an empty channel registry. -/
def topologyFn (c : Connection) (o : ConnectionOpts) : Topology where
  name := c.name
  connection := some c
  options := o

/-- `clearAckInterval` (lines 138-140): `clearInterval(this.ackIntervalId)`.
The external timer stops; the stored field itself is not cleared. -/
def Broker.clearAckInterval (b : Broker) : Broker × List Effect :=
  ({ b with ackTimerArmed := false }, [Effect.stopTimer])

/-- `setAckInterval(interval)` (lines 285-290): clears any previously armed
timer, then arms a repeating timer driving `batchAck`. -/
def Broker.setAckInterval (b : Broker) (interval : Nat) : Broker × List Effect :=
  let (b1, effs) :=
    if b.ackIntervalId.isSome then Broker.clearAckInterval b else (b, [])
  ({ b1 with ackIntervalId := some interval, ackTimerArmed := true },
    effs ++ [Effect.setTimer interval])

/-- The `connected` handler wired by `addConnection` (lines 69-73): emits the
generic "connected" and the connection-qualified ".connection.opened" events,
then starts the ack batcher at 500ms. -/
def Broker.onConnected (b : Broker) (connection : Connection) : Broker × List Effect :=
  let (b1, effs) := Broker.setAckInterval b 500
  (b1, [Effect.emit "connected" (.conn connection.name),
        Effect.emit (connection.name ++ ".connection.opened") (.conn connection.name)] ++ effs)

/-- The `closed` handler wired by `addConnection` (lines 74-77). -/
def Broker.onClosed (b : Broker) (connection : Connection) : Broker × List Effect :=
  (b, [Effect.emit "closed" (.conn connection.name),
       Effect.emit (connection.name ++ ".connection.closed") (.conn connection.name)])

/-- The `failed` handler wired by `addConnection` (lines 78-81); `name` is the
`addConnection` local captured by the closure. -/
def Broker.onFailed (b : Broker) (name : String) (connection : Connection) (err : String) :
    Broker × List Effect :=
  (b, [Effect.emit "failed" (.conn connection.name),
       Effect.emit (name ++ ".connection.failed") (.err err)])

/-- The `unreachable` handler wired by `addConnection`, exactly as written at
lines 82-86: `this.emit("unreachable", connection);
this.emit(name, ".connection.unreachable"); this.clearAckInterval();`.
Note the second emit: the event name is just `name`, and the string
".connection.unreachable" is passed as the event payload. -/
def Broker.onUnreachable (b : Broker) (name : String) (connection : Connection) :
    Broker × List Effect :=
  let (b1, effs) := Broker.clearAckInterval b
  (b1, [Effect.emit "unreachable" (.conn connection.name),
        Effect.emit name (.str ".connection.unreachable")] ++ effs)

/-- `Broker.prototype.addConnection` (lines 59-94). For a fresh name a
(Connection, Topology) pair is constructed, the four lifecycle handlers
(`onConnected` .. `onUnreachable` above) are wired, and the topology is
registered and returned; for an already-registered name the existing entry's
connection is told to connect again and the existing topology is returned. -/
def Broker.addConnection (b : Broker) (options? : Option ConnectionOpts) :
    Broker × List Effect × Except JsError Topology :=
  let o := resolveConnectionOptions options?
  let name := o.name.getD "default"
  match lookupStr name b.connections with
  | none =>
    let connection := connectionFn o
    let topology := topologyFn connection o
    ({ b with connections := insertStr name topology b.connections },
      [Effect.createConnection name], .ok topology)
  | some t =>
    match t.connection with
    | some c => (b, [Effect.reconnect c.name], .ok t)
    | none => (b, [], .error (.typeError "Cannot read property 'connect' of undefined"))

/-- Queue creation options (the fields of `addQueue`'s options record the
facade itself inspects). -/
structure QueueOpts where
  name : Option String := none
  subscribe : Bool := false
deriving DecidableEq, Repr

/-- `addQueue(name, options, connectionName)` (lines 108-115): warns when a
subscribing queue is created while no handler was ever registered, then
delegates to `topology.createQueue` (modelled from the spec: registers the
channel under `"queue:" + name`). An unknown connection name makes the
method-call on `undefined` throw. -/
def Broker.addQueue (b : Broker) (name : String) (options : QueueOpts)
    (connectionName? : Option String) : Broker × List Effect × Except JsError Channel :=
  let connectionName := jsOrStr connectionName? "default"
  let warnEffs := if options.subscribe && !b.hasHandles
    then [Effect.warn ("Subscription to '" ++ name
      ++ "' was started without any handlers. This will result in lost messages!")]
    else []
  match lookupStr connectionName b.connections with
  | none => (b, warnEffs, .error (.typeError "Cannot read property 'createQueue' of undefined"))
  | some t =>
    let q : Channel := { kind := "queue", chanName := name }
    let t' := { t with channels := insertStr ("queue:" ++ name) q t.channels }
    ({ b with connections := insertStr connectionName t' b.connections }, warnEffs, .ok q)

/-- `addExchange(name, type, options, connectionName)` (lines 96-106),
positional form: stamps name and type onto the options and delegates to
`topology.createExchange` (modelled from the spec: registers the channel
under `"exchange:" + name`); the object-argument overload shifts parameters
but reaches the same call. -/
def Broker.addExchange (b : Broker) (name : String) (exType : String)
    (connectionName? : Option String) : Broker × List Effect × Except JsError Channel :=
  let connectionName := jsOrStr connectionName? "default"
  match lookupStr connectionName b.connections with
  | none => (b, [], .error (.typeError "Cannot read property 'createExchange' of undefined"))
  | some t =>
    let e : Channel := { kind := exType, chanName := name }
    let t' := { t with channels := insertStr ("exchange:" ++ name) e t.channels }
    ({ b with connections := insertStr connectionName t' b.connections }, [], .ok e)

/-- `addSerializer(contentType, serializer)` (lines 117-119): last writer
wins in the module-level registry; tracked as the set of registered content
types. -/
def Broker.addSerializer (b : Broker) (contentType : String) : Broker :=
  { b with serializers := if b.serializers.contains contentType then b.serializers
      else b.serializers ++ [contentType] }

/-- `batchAck()` (lines 121-123): publishes one coalesced ack signal. -/
def Broker.batchAck (b : Broker) : Broker × List Effect :=
  (b, [Effect.ackSignal])

/-- `bindExchange(source, target, keys, connectionName)` (lines 125-128). -/
def Broker.bindExchange (b : Broker) (source target : String) (keys : List String)
    (connectionName? : Option String) : Broker × List Effect × Except JsError Unit :=
  let connectionName := jsOrStr connectionName? "default"
  match lookupStr connectionName b.connections with
  | none => (b, [], .error (.typeError "Cannot read property 'createBinding' of undefined"))
  | some t =>
    let t' := { t with bindings :=
      t.bindings ++ [{ source := source, target := target, keys := keys }] }
    ({ b with connections := insertStr connectionName t' b.connections }, [], .ok ())

/-- `bindQueue(source, target, keys, connectionName)` (lines 130-136): same
as `bindExchange` with the `queue` flag set on the binding spec. -/
def Broker.bindQueue (b : Broker) (source target : String) (keys : List String)
    (connectionName? : Option String) : Broker × List Effect × Except JsError Unit :=
  let connectionName := jsOrStr connectionName? "default"
  match lookupStr connectionName b.connections with
  | none => (b, [], .error (.typeError "Cannot read property 'createBinding' of undefined"))
  | some t =>
    let t' := { t with bindings :=
      t.bindings ++ [{ source := source, target := target, keys := keys, queue := true }] }
    ({ b with connections := insertStr connectionName t' b.connections }, [], .ok ())

/-- `deleteExchange(name, connectionName)` (lines 163-166). -/
def Broker.deleteExchange (b : Broker) (name : String) (connectionName? : Option String) :
    Broker × List Effect × Except JsError Unit :=
  let connectionName := jsOrStr connectionName? "default"
  match lookupStr connectionName b.connections with
  | none => (b, [], .error (.typeError "Cannot read property 'deleteExchange' of undefined"))
  | some t =>
    let t' := { t with channels := removeStr ("exchange:" ++ name) t.channels }
    ({ b with connections := insertStr connectionName t' b.connections }, [], .ok ())

/-- `deleteQueue(name, connectionName)` (lines 168-171). -/
def Broker.deleteQueue (b : Broker) (name : String) (connectionName? : Option String) :
    Broker × List Effect × Except JsError Unit :=
  let connectionName := jsOrStr connectionName? "default"
  match lookupStr connectionName b.connections with
  | none => (b, [], .error (.typeError "Cannot read property 'deleteQueue' of undefined"))
  | some t =>
    let t' := { t with channels := removeStr ("queue:" ++ name) t.channels }
    ({ b with connections := insertStr connectionName t' b.connections }, [], .ok ())

/-- `getExchange(name, connectionName)` (lines 173-176): a plain registry
read; an unknown connection name makes the property access throw, an unknown
exchange yields `undefined`. -/
def Broker.getExchange (b : Broker) (name : String) (connectionName? : Option String) :
    Except JsError (Option Channel) :=
  let connectionName := jsOrStr connectionName? "default"
  match lookupStr connectionName b.connections with
  | none => .error (.typeError "Cannot read property 'channels' of undefined")
  | some t => .ok (lookupStr ("exchange:" ++ name) t.channels)

/-- `getQueue(name, connectionName)` (lines 178-181). -/
def Broker.getQueue (b : Broker) (name : String) (connectionName? : Option String) :
    Except JsError (Option Channel) :=
  let connectionName := jsOrStr connectionName? "default"
  match lookupStr connectionName b.connections with
  | none => .error (.typeError "Cannot read property 'channels' of undefined")
  | some t => .ok (lookupStr ("queue:" ++ name) t.channels)

/-- Modelled from the spec: `when.all` over already-settled results —
resolves with the list of values when every entry resolved, rejects with the
first rejection otherwise. -/
def whenAll {ε α : Type} : List (Except ε α) → Except ε (List α)
  | [] => .ok []
  | .ok a :: rest => (whenAll rest).map (fun l => a :: l)
  | .error e :: _ => .error e

/-- `Broker.prototype.close(connectionName, reset)` (lines 150-161). The
source fetches `this.connections[connectionName].connection` before any
guard, so an unknown connection name raises a TypeError; the `when(true)`
no-op branch is reachable only when the registry entry exists but carries no
connection. On the normal path, a set `reset` flag first clears the local
topology registry, then the close is delegated to the external connection;
`env` supplies the settled result of that external `connection.close(reset)`. -/
def Broker.close (env : String → Except String Unit) (b : Broker)
    (connectionName? : Option String) (reset : Bool) :
    Broker × List Effect × Except JsError (Except String Unit) :=
  let connectionName := jsOrStr connectionName? "default"
  match lookupStr connectionName b.connections with
  | none => (b, [], .error (.typeError "Cannot read property 'connection' of undefined"))
  | some t =>
    match t.connection with
    | some c =>
      let b' := if reset
        then { b with connections := insertStr connectionName { t with channels := [] } b.connections }
        else b
      (b', [Effect.closeConnection c.name reset], .ok (env c.name))
    | none => (b, [], .ok (.ok ()))

/-- The closers map of `closeAll` (lines 144-146):
`_.map(this.connections, connection => this.close(connection.name, reset))`,
visiting the registry in object order; a synchronous throw aborts the map. -/
def Broker.closersLoop (env : String → Except String Unit) (reset : Bool) :
    Broker → List (String × Topology) →
      Broker × List Effect × Except JsError (List (Except String Unit))
  | b, [] => (b, [], .ok [])
  | b, (_, t) :: rest =>
    match Broker.close env b (some t.name) reset with
    | (b', effs, .error e) => (b', effs, .error e)
    | (b', effs, .ok r) =>
      match Broker.closersLoop env reset b' rest with
      | (b'', effs2, .error e) => (b'', effs ++ effs2, .error e)
      | (b'', effs2, .ok rs) => (b'', effs ++ effs2, .ok (r :: rs))

/-- `closeAll(reset)` (lines 142-148): initiates a close for every registered
connection and aggregates the settled results with `when.all`. -/
def Broker.closeAll (env : String → Except String Unit) (b : Broker) (reset : Bool) :
    Broker × List Effect × Except JsError (Except String (List Unit)) :=
  match Broker.closersLoop env reset b b.connections with
  | (b', effs, .error e) => (b', effs, .error e)
  | (b', effs, .ok rs) => (b', effs, .ok (whenAll rs))

/-- `shutdown()` (lines 292-297): `closeAll(true)` then, on the resolved
path, `clearAckInterval()`. -/
def Broker.shutdown (env : String → Except String Unit) (b : Broker) :
    Broker × List Effect × Except JsError (Except String Unit) :=
  match Broker.closeAll env b true with
  | (b', effs, .error e) => (b', effs, .error e)
  | (b', effs, .ok (.error e)) => (b', effs, .ok (.error e))
  | (b', effs, .ok (.ok _)) =>
    match Broker.clearAckInterval b' with
    | (b'', effs2) => (b'', effs ++ effs2, .ok (.ok ()))

/-- Hierarchy-delimiter sanitization of `handle`:
`queueName.replace(/[.]/g, "-")` (line 188). -/
def sanitizeQueue (q : Str) : Str := q.map (fun c => if c = '.' then '-' else c)

/-- Topic derivation of `handle` (lines 185-196): the default prefix is the
universal wildcard `#`; a string queue name is sanitized and used as the
prefix; the message type is appended as a "."-separated suffix exactly when
it is non-empty (`_.isEmpty` is true for `undefined` and `""`). -/
def handleTopic (messageType : Option Str) (queueName : Option Str) : Str :=
  let pfx : Str := match queueName with
    | some q => sanitizeQueue q
    | none => ['#']
  match messageType with
  | none => pfx
  | some t => if t = [] then pfx else pfx ++ '.' :: t

/-- `Broker.prototype.handle(messageType, handler, queueName, context)`
(lines 183-206): sets `hasHandles`, derives the topic and subscribes the
bound handler on the postal dispatch channel (under `autoNack` a catch
wrapper nacking the message is attached to the subscription). Returns the
subscription's topic. -/
def Broker.handle (b : Broker) (messageType : Option Str) (queueName : Option Str) :
    Broker × List Effect × Str :=
  let target := handleTopic messageType queueName
  ({ b with hasHandles := true, subscriptions := b.subscriptions ++ [target] },
    [Effect.dispatchSubscribe target], target)

/-- Remove the first occurrence of an element. -/
def removeFirst {α : Type} [DecidableEq α] (a : α) : List α → List α
  | [] => []
  | x :: xs => if x = a then xs else x :: removeFirst a xs

/-- `subscription.remove` / `subscription.unsubscribe` (line 204): removes
the postal subscription; only future dispatch is affected. -/
def Broker.unsubscribe (b : Broker) (target : Str) : Broker :=
  { b with subscriptions := removeFirst target b.subscriptions }

/-- `ignoreHandlerErrors()` (lines 208-210). -/
def Broker.ignoreHandlerErrors (b : Broker) : Broker := { b with autoNack := false }

/-- `nackOnError()` (lines 212-214). -/
def Broker.nackOnError (b : Broker) : Broker := { b with autoNack := true }

/-- `nackUnhandled()` (lines 216-218). -/
def Broker.nackUnhandled (b : Broker) : Broker :=
  { b with unhandledStrategy := .nackOnUnhandled }

/-- `onUnhandled(handler)` (lines 220-222): installs the caller-supplied
callback as the custom strategy and selects it. -/
def Broker.onUnhandledSet (b : Broker) : Broker :=
  { b with unhandledStrategy := .customOnUnhandled }

/-- `rejectUnhandled()` (lines 224-226). -/
def Broker.rejectUnhandled (b : Broker) : Broker :=
  { b with unhandledStrategy := .rejectOnUnhandled }

/-- The canonical publish options record (lines 236-246). -/
structure PublishOpts where
  appId : Option String := none
  type : Option String := none
  routingKey : Option String := none
  correlationId : Option String := none
  sequenceNo : Option Nat := none
  messageId : Option Nat := none
  connectionName : Option String := none
  connectionPublishTimeout : Option Nat := none
deriving DecidableEq, Repr

/-- `publish(exchangeName, options, connectionName)` (lines 228-254),
prebuilt-options path (the positional path first normalizes into the same
record). Connection-name resolution order: explicit argument → the message's
own `connectionName` → "default". A truthy `publishTimeout` on the resolved
connection's options is copied onto the per-message options; the message is
handed to the resolved exchange's `publish`. Unknown connection or exchange
names make the property access throw. -/
def Broker.publish (b : Broker) (exchangeName : String) (options : PublishOpts)
    (connectionName? : Option String) : Broker × List Effect × Except JsError PublishOpts :=
  let connectionName := jsOrStr connectionName? (jsOrStr options.connectionName "default")
  match lookupStr connectionName b.connections with
  | none => (b, [], .error (.typeError "Cannot read property 'options' of undefined"))
  | some t =>
    let options := if jsOrNat t.options.publishTimeout 0 ≠ 0
      then { options with connectionPublishTimeout := t.options.publishTimeout }
      else options
    match lookupStr ("exchange:" ++ exchangeName) t.channels with
    | none => (b, [], .error (.typeError "Cannot read property 'publish' of undefined"))
    | some _ => (b, [Effect.publishMessage exchangeName connectionName], .ok options)

/-- An inbound reply on the responses channel; `seqEnd` is the truthiness of
`message.properties.headers["sequence_end"]` and `payload` stands for the
message content. -/
structure ReplyMsg where
  seqEnd : Bool
  payload : Nat
deriving DecidableEq, Repr

/-- The observable state of one pending request: the resolved value of its
promise (at most one), the progress notifications forwarded so far, and
whether the reply subscription is still live. -/
structure RequestState where
  resolved : Option ReplyMsg
  notifications : List ReplyMsg
  subscribed : Bool
deriving DecidableEq, Repr

/-- State of the reply subscription right after `request` created it. -/
def requestInit : RequestState :=
  { resolved := none, notifications := [], subscribed := true }

/-- Delivery of one inbound reply to the subscription callback created by
`request` (lines 262-269): while the subscription is live, a reply carrying
the "sequence_end" header resolves the promise with that message and
immediately unsubscribes; any other reply is only forwarded to the progress
callback (`notify`) and the operation stays pending. A torn-down
subscription receives nothing. -/
def requestStep (s : RequestState) (m : ReplyMsg) : RequestState :=
  if s.subscribed then
    if m.seqEnd then { s with resolved := some m, subscribed := false }
    else { s with notifications := s.notifications ++ [m] }
  else s

/-- Fold an entire inbound reply sequence through the subscription callback. -/
def runRequest (ms : List ReplyMsg) : RequestState :=
  ms.foldl requestStep requestInit

/-- `Broker.prototype.request(exchangeName, options, connectionName)`
(lines 256-272): stamps a fresh time-ordered correlation identifier
(`uuid.v1()` is external; supplied here as `requestId`) onto the options as
`messageId`, subscribes on the responses channel keyed by it, publishes, and
returns the pending-promise state that `requestStep` evolves. A synchronous
publish failure inside the promise body rejects the promise. -/
def Broker.request (b : Broker) (exchangeName : String) (options : PublishOpts)
    (connectionName? : Option String) (requestId : Nat) :
    Broker × List Effect × Except JsError RequestState :=
  let connectionName := jsOrStr connectionName? (jsOrStr options.connectionName "default")
  let options := { options with messageId := some requestId
                                connectionName := some connectionName }
  match Broker.publish b exchangeName options none with
  | (b', effs, .ok _) =>
    (b', Effect.responsesSubscribe requestId :: effs, .ok requestInit)
  | (b', effs, .error e) =>
    (b', Effect.responsesSubscribe requestId :: effs, .error e)

/-- `Broker.prototype.reset` (lines 274-277): `this.connections = {};
this.configurations = {};` — no other field is touched. -/
def Broker.reset (b : Broker) : Broker :=
  { b with connections := [], configurations := [] }

/-- `retry(connectionName)` (lines 279-283): re-applies the stored
configuration through `this.configure` (config.js, not in src/ — modelled
from the spec as re-applying the last stored configuration, surfaced as an
effect). -/
def Broker.retry (b : Broker) (connectionName? : Option String) : Broker × List Effect :=
  let connectionName := jsOrStr connectionName? "default"
  (b, [Effect.configureApplied connectionName])

/-- The `exclusive` argument of `startSubscription`: a boolean, or a string
that is really the connection name (the argument shuffle of lines 303-306). -/
inductive ExclusiveArg where
  | bool (b : Bool)
  | str (s : String)
deriving DecidableEq, Repr

/-- `startSubscription(queueName, exclusive, connectionName)` (lines
299-315): warns when no handler was ever registered, resolves the argument
shuffle, fetches the queue from the resolved connection's channel registry
and subscribes and returns it — or throws a synchronous Error when the queue
was never declared there. -/
def Broker.startSubscription (b : Broker) (queueName : String)
    (exclusive? : Option ExclusiveArg) (connectionName? : Option String) :
    Broker × List Effect × Except JsError Channel :=
  let warnEffs := if !b.hasHandles
    then [Effect.warn ("Subscription to '" ++ queueName
      ++ "' was started without any handlers. This will result in lost messages!")]
    else []
  let resolved := match exclusive? with
    | some (.str s) => (false, some s)
    | some (.bool e) => (e, connectionName?)
    | none => (false, connectionName?)
  let exclusive := resolved.1
  let connectionName := jsOrStr resolved.2 "default"
  match lookupStr connectionName b.connections with
  | none => (b, warnEffs, .error (.typeError "Cannot read property 'channels' of undefined"))
  | some t =>
    match lookupStr ("queue:" ++ queueName) t.channels with
    | some q => (b, warnEffs ++ [Effect.subscribeQueue queueName exclusive], .ok q)
    | none => (b, warnEffs, .error (.error ("No queue named '" ++ queueName
        ++ "' for connection '" ++ connectionName ++ "'. Subscription failed.")))

/-- The operations of the broker facade's public surface, plus the four
lifecycle events relayed from a connection. -/
inductive BrokerOp where
  | addConnection (options? : Option ConnectionOpts)
  | addExchange (name : String) (exType : String) (connectionName? : Option String)
  | addQueue (name : String) (options : QueueOpts) (connectionName? : Option String)
  | addSerializer (contentType : String)
  | batchAck
  | bindExchange (source target : String) (keys : List String) (connectionName? : Option String)
  | bindQueue (source target : String) (keys : List String) (connectionName? : Option String)
  | clearAckInterval
  | close (connectionName? : Option String) (reset : Bool)
  | closeAll (reset : Bool)
  | deleteExchange (name : String) (connectionName? : Option String)
  | deleteQueue (name : String) (connectionName? : Option String)
  | handle (messageType : Option Str) (queueName : Option Str)
  | unsubscribe (target : Str)
  | ignoreHandlerErrors
  | nackOnError
  | nackUnhandled
  | onUnhandled
  | rejectUnhandled
  | publish (exchangeName : String) (options : PublishOpts) (connectionName? : Option String)
  | request (exchangeName : String) (options : PublishOpts) (connectionName? : Option String)
      (requestId : Nat)
  | reset
  | retry (connectionName? : Option String)
  | setAckInterval (interval : Nat)
  | shutdown
  | startSubscription (queueName : String) (exclusive? : Option ExclusiveArg)
      (connectionName? : Option String)
  | onConnected (c : Connection)
  | onClosed (c : Connection)
  | onFailed (name : String) (c : Connection) (err : String)
  | onUnreachable (name : String) (c : Connection)
deriving DecidableEq, Repr

/-- The broker-state transition of one operation: the state the broker object
is left in after the call (whether the call returned, resolved or threw).
`env` supplies the settled results of external connection closes. -/
def applyOp (env : String → Except String Unit) (b : Broker) : BrokerOp → Broker
  | .addConnection o => (Broker.addConnection b o).1
  | .addExchange n ty c => (Broker.addExchange b n ty c).1
  | .addQueue n o c => (Broker.addQueue b n o c).1
  | .addSerializer ct => Broker.addSerializer b ct
  | .batchAck => (Broker.batchAck b).1
  | .bindExchange s t k c => (Broker.bindExchange b s t k c).1
  | .bindQueue s t k c => (Broker.bindQueue b s t k c).1
  | .clearAckInterval => (Broker.clearAckInterval b).1
  | .close c r => (Broker.close env b c r).1
  | .closeAll r => (Broker.closeAll env b r).1
  | .deleteExchange n c => (Broker.deleteExchange b n c).1
  | .deleteQueue n c => (Broker.deleteQueue b n c).1
  | .handle mt qn => (Broker.handle b mt qn).1
  | .unsubscribe t => Broker.unsubscribe b t
  | .ignoreHandlerErrors => Broker.ignoreHandlerErrors b
  | .nackOnError => Broker.nackOnError b
  | .nackUnhandled => Broker.nackUnhandled b
  | .onUnhandled => Broker.onUnhandledSet b
  | .rejectUnhandled => Broker.rejectUnhandled b
  | .publish e o c => (Broker.publish b e o c).1
  | .request e o c rid => (Broker.request b e o c rid).1
  | .reset => Broker.reset b
  | .retry c => (Broker.retry b c).1
  | .setAckInterval i => (Broker.setAckInterval b i).1
  | .shutdown => (Broker.shutdown env b).1
  | .startSubscription q ex c => (Broker.startSubscription b q ex c).1
  | .onConnected c => (Broker.onConnected b c).1
  | .onClosed c => (Broker.onClosed b c).1
  | .onFailed n c e => (Broker.onFailed b n c e).1
  | .onUnreachable n c => (Broker.onUnreachable b n c).1

/-- Run a sequence of operations from a starting state. -/
def runOps (env : String → Except String Unit) (b : Broker) (ops : List BrokerOp) : Broker :=
  ops.foldl (applyOp env) b

/-! ## Concrete fixtures used in witnesses and counterexamples -/

/-- A close environment in which every external close resolves. -/
def env0 : String → Except String Unit := fun _ => .ok ()

/-- The broker after one default `addConnection`. -/
def bReg : Broker := (Broker.addConnection Broker.new none).1

/-- The topology registered by the default `addConnection`. -/
def topo0 : Topology :=
  topologyFn (connectionFn (resolveConnectionOptions none)) (resolveConnectionOptions none)

/-! ## C1: addConnection defaults and idempotent registration -/

/-- **C1.** `addConnection` defaults the connection name to "default", the
retry limit to 3 and the fail-after to 60 seconds — the freshly constructed
(Connection, Topology) pair carries exactly those values when the options (or
the individual fields) are absent; and for every name already registered, a
second `addConnection` call does not construct a second (Connection,
Topology) pair: it leaves the broker unchanged, issues a reconnect on the
existing connection, and returns the existing topology unchanged. -/
theorem addConnection_defaults_and_idempotent :
    (∀ (b : Broker) (options? : Option ConnectionOpts),
      (options? = none ∨ ∃ o, options? = some o ∧ o.name = none
        ∧ o.retryLimit = none ∧ o.failAfter = none) →
      lookupStr "default" b.connections = none →
      ∃ t, (Broker.addConnection b options?).2.2 = .ok t
        ∧ t.connection = some { name := "default", retryLimit := 3, failAfter := 60 }
        ∧ (Broker.addConnection b options?).1.connections
            = insertStr "default" t b.connections)
    ∧ (∀ (b : Broker) (options? : Option ConnectionOpts) (t : Topology) (c : Connection),
      lookupStr ((resolveConnectionOptions options?).name.getD "default") b.connections = some t →
      t.connection = some c →
      Broker.addConnection b options? = (b, [Effect.reconnect c.name], .ok t)) := by
  constructor
  · intro b options? hopts hlook
    have hres1 : (resolveConnectionOptions options?).name = some "default" := by
      rcases hopts with h | ⟨o, rfl, hn, hr, hf⟩
      · subst h; rfl
      · simp [resolveConnectionOptions, hn, jsOrStr]
    have hres2 : (resolveConnectionOptions options?).retryLimit = some 3 := by
      rcases hopts with h | ⟨o, rfl, hn, hr, hf⟩
      · subst h; rfl
      · simp [resolveConnectionOptions, hr, jsOrNat]
    have hres3 : (resolveConnectionOptions options?).failAfter = some 60 := by
      rcases hopts with h | ⟨o, rfl, hn, hr, hf⟩
      · subst h; rfl
      · simp [resolveConnectionOptions, hf, jsOrNat]
    refine ⟨topologyFn (connectionFn (resolveConnectionOptions options?))
      (resolveConnectionOptions options?), ?_, ?_, ?_⟩
    · simp only [Broker.addConnection, hres1, Option.getD_some, hlook]
    · simp only [topologyFn, connectionFn, hres1, hres2, hres3, Option.getD_some]
    · simp only [Broker.addConnection, hres1, Option.getD_some, hlook]
  · intro b options? t c hlook hconn
    simp only [Broker.addConnection, hlook, hconn]

/-- Witness for C1 at concrete inputs: a fresh broker gets a new default
connection with the default options, and a second default `addConnection`
only reconnects. -/
theorem addConnection_defaults_and_idempotent_witness :
    (∃ t, (Broker.addConnection Broker.new none).2.2 = .ok t
      ∧ t.connection = some { name := "default", retryLimit := 3, failAfter := 60 }
      ∧ (Broker.addConnection Broker.new none).1.connections
          = insertStr "default" t Broker.new.connections)
    ∧ Broker.addConnection bReg none
        = (bReg, [Effect.reconnect "default"], .ok topo0) :=
  ⟨addConnection_defaults_and_idempotent.1 Broker.new none (Or.inl rfl) (by decide),
   addConnection_defaults_and_idempotent.2 bReg none topo0
     { name := "default", retryLimit := 3, failAfter := 60 } (by decide) (by decide)⟩

/-! ## C2: request resolves exactly once, on the first terminal reply -/

/-- While the subscription is live, non-terminal replies only append progress
notifications. -/
theorem runRequest_progress (pre : List ReplyMsg) :
    ∀ s : RequestState, s.subscribed = true → (∀ x ∈ pre, x.seqEnd = false) →
    pre.foldl requestStep s = { s with notifications := s.notifications ++ pre } := by
  induction pre with
  | nil => intro s _ _; simp
  | cons m pre ih =>
    intro s hs hall
    have hm : m.seqEnd = false := hall m (by simp)
    simp only [List.foldl_cons]
    rw [show requestStep s m = { s with notifications := s.notifications ++ [m] } by
      simp [requestStep, hs, hm]]
    rw [ih _ (by simp [hs]) (fun x hx => hall x (by simp [hx]))]
    simp

/-- After the subscription is torn down, further replies change nothing. -/
theorem runRequest_after_unsubscribe (post : List ReplyMsg) :
    ∀ s : RequestState, s.subscribed = false → post.foldl requestStep s = s := by
  induction post with
  | nil => intro s _; rfl
  | cons m post ih =>
    intro s hs
    simp only [List.foldl_cons]
    rw [show requestStep s m = s by simp [requestStep, hs]]
    exact ih s hs

/-- **C2.** For every inbound reply sequence sharing a request's correlation
identifier, in which some reply carries the "sequence end" marker, the future
returned by `request` resolves exactly once, namely with the first marked
reply: every earlier (unmarked) reply triggers exactly one progress
notification and leaves the operation pending, the subscription is
unsubscribed immediately at the terminal reply, and everything delivered
afterwards is ignored. -/
theorem request_resolves_on_first_terminal (pre post : List ReplyMsg) (m : ReplyMsg)
    (hpre : ∀ x ∈ pre, x.seqEnd = false) (hm : m.seqEnd = true) :
    runRequest (pre ++ m :: post)
      = { resolved := some m, notifications := pre, subscribed := false } := by
  rw [runRequest, List.foldl_append]
  rw [runRequest_progress pre requestInit rfl hpre]
  simp only [List.foldl_cons]
  rw [show requestStep { requestInit with notifications := requestInit.notifications ++ pre } m
      = { resolved := some m, notifications := pre, subscribed := false } by
    simp [requestStep, requestInit, hm]]
  exact runRequest_after_unsubscribe post _ rfl

/-- Witness for C2: a partial reply, then the terminal reply, then two late
replies (one of them marked) — the promise resolves with the first marked
reply only, the partial reply shows up as the single notification. -/
theorem request_resolves_on_first_terminal_witness :
    runRequest [⟨false, 1⟩, ⟨true, 2⟩, ⟨true, 3⟩, ⟨false, 4⟩]
      = { resolved := some ⟨true, 2⟩, notifications := [⟨false, 1⟩], subscribed := false } :=
  request_resolves_on_first_terminal [⟨false, 1⟩] [⟨true, 3⟩, ⟨false, 4⟩] ⟨true, 2⟩
    (by decide) rfl

/-! ## C4: close on an unknown connection -/

/-- **C4 (code bug).** The claim says `close(name, reset)` is a no-op success
when the named connection is unknown. The source (lines 150-161) dereferences
`this.connections[connectionName].connection` before the undefined guard, so
an unknown name throws a TypeError instead of returning the `when(true)`
no-op of the dead else-branch; on a registered connection the call behaves as
claimed — with reset set, the local topology registry is cleared first, and
the close is delegated to the underlying connection. -/
theorem close_unknown_connection_throws :
    Broker.close env0 Broker.new (some "missing") false
      = (Broker.new, [], .error (.typeError "Cannot read property 'connection' of undefined"))
    ∧ Broker.close env0 bReg (some "default") true
      = ({ bReg with connections := [("default", { topo0 with channels := [] })] },
         [Effect.closeConnection "default" true], .ok (.ok ())) := by
  constructor
  · rfl
  · decide

/-! ## C9: reset versus a cold start -/

/-- **C9 (amended).** `reset` clears the connection registry and the stored
configurations — and nothing else: `hasHandles`, `autoNack`, the serializer
registry, the unhandled strategy, the subscriptions and the ack-timer state
all survive a reset, so a reset broker need not be observationally equal to a
freshly constructed one. -/
theorem reset_clears_only_registries (b : Broker) :
    Broker.reset b = { b with connections := [], configurations := [] } := rfl

/-- The broker after a single `handle("created", h)` registration. -/
def bHandled : Broker := (Broker.handle Broker.new (some "created".toList) none).1

/-- **C9 (counterexample).** The claim says no observable broker state
distinguishes a reset broker from a freshly constructed one. After
`handle(...)` followed by `reset()`, `hasHandles` is still true while a fresh
broker's is false — observably: an `addQueue` with `subscribe` warns on the
fresh broker and not on the reset one. -/
theorem reset_not_cold_start :
    (Broker.reset bHandled).hasHandles = true
    ∧ Broker.new.hasHandles = false
    ∧ Broker.reset bHandled ≠ Broker.new
    ∧ (Broker.addQueue (Broker.reset bHandled) "q" { subscribe := true } none).2.1 = []
    ∧ (Broker.addQueue Broker.new "q" { subscribe := true } none).2.1
        = [Effect.warn "Subscription to 'q' was started without any handlers. This will result in lost messages!"] := by
  refine ⟨rfl, rfl, by decide, by decide, by decide⟩

/-! ## C3: handle topic derivation and routing -/

/-- Split a binding topic at its first "." into its prefix and optional
suffix. -/
def splitBinding : Str → Str × Option Str
  | [] => ([], none)
  | c :: rest =>
    if c = '.' then ([], some rest)
    else
      let ps := splitBinding rest
      (c :: ps.1, ps.2)

/-- Modelled from the spec: dispatch matching of a `handle` binding topic
against an inbound message on queue `queue` carrying type `msgType`. The
postal channel matching and the inbound dispatch topics are produced outside
src/; per the spec, a wildcard-prefix subscription matches any queue, a
queue-scoped subscription matches exactly that (sanitized) queue, and a type
suffix narrows to the exact message type while its absence matches every
type. -/
def dispatchMatch (binding : Str) (queue msgType : Str) : Bool :=
  let ps := splitBinding binding
  (ps.1 = ['#'] || ps.1 = sanitizeQueue queue)
    && (match ps.2 with
        | none => true
        | some sfx => sfx = msgType)

theorem sanitizeQueue_eq_iff : ∀ l q : Str, '-' ∉ l → '.' ∉ l →
    (sanitizeQueue q = l ↔ q = l) := by
  intro l
  induction l with
  | nil =>
    intro q _ _
    cases q with
    | nil => exact ⟨fun _ => rfl, fun _ => rfl⟩
    | cons c cs =>
      constructor
      · intro h
        simp [sanitizeQueue] at h
      · intro h
        exact absurd h (by simp)
  | cons d l' ih =>
    intro q hdash hdot
    have hdashl : '-' ∉ l' := fun h => hdash (List.mem_cons_of_mem _ h)
    have hdotl : '.' ∉ l' := fun h => hdot (List.mem_cons_of_mem _ h)
    have hd1 : d ≠ '-' := fun h => hdash (by rw [← h]; exact List.mem_cons_self _ _)
    have hd2 : d ≠ '.' := fun h => hdot (by rw [← h]; exact List.mem_cons_self _ _)
    cases q with
    | nil =>
      constructor
      · intro h
        exact absurd h (by simp [sanitizeQueue])
      · intro h
        exact absurd h (by simp)
    | cons c cs =>
      have hstep : sanitizeQueue (c :: cs)
          = (if c = '.' then '-' else c) :: sanitizeQueue cs := rfl
      rw [hstep]
      constructor
      · intro h
        injection h with h1 h2
        by_cases hc : c = '.'
        · rw [if_pos hc] at h1
          exact absurd h1.symm hd1
        · rw [if_neg hc] at h1
          rw [h1, (ih cs hdashl hdotl).1 h2]
      · intro h
        injection h with h1 h2
        subst h1
        subst h2
        rw [if_neg hd2, (ih cs hdashl hdotl).2 rfl]

/-- **C3.** `handle` derives the subscription topic as claimed — no queue
name gives the universal wildcard prefix `#`, a queue name is used as the
prefix with hierarchy-delimiter characters replaced, and the message type is
appended as a "."-separated suffix exactly when non-empty — and consequently
(against the spec-modelled dispatch matching) `handle("created", h,
"orders")` matches exactly the messages of type "created" on queue "orders",
`handle("created", h)` matches type "created" on any queue, and
`handle(undefined, h, "orders")` matches all types on queue "orders". -/
theorem handle_topic_routing :
    (handleTopic (some "created".toList) (some "orders".toList) = "orders.created".toList
      ∧ handleTopic (some "created".toList) none = "#.created".toList
      ∧ handleTopic none (some "orders".toList) = "orders".toList)
    ∧ (∀ q t : Str,
        dispatchMatch (handleTopic (some "created".toList) (some "orders".toList)) q t = true
          ↔ q = "orders".toList ∧ t = "created".toList)
    ∧ (∀ q : Str,
        dispatchMatch (handleTopic (some "created".toList) none) q "created".toList = true)
    ∧ (∀ q t : Str,
        dispatchMatch (handleTopic none (some "orders".toList)) q t = true
          ↔ q = "orders".toList) := by
  have hb1 : handleTopic (some "created".toList) (some "orders".toList)
      = "orders.created".toList := by decide
  have hb2 : handleTopic (some "created".toList) none = "#.created".toList := by decide
  have hb3 : handleTopic none (some "orders".toList) = "orders".toList := by decide
  have hs1 : splitBinding "orders.created".toList
      = ("orders".toList, some "created".toList) := by decide
  have hs2 : splitBinding "#.created".toList = (['#'], some "created".toList) := by decide
  have hs3 : splitBinding "orders".toList = ("orders".toList, none) := by decide
  refine ⟨⟨hb1, hb2, hb3⟩, ?_, ?_, ?_⟩
  · intro q t
    rw [hb1]
    simp only [dispatchMatch, hs1, Bool.and_eq_true, Bool.or_eq_true, decide_eq_true_eq]
    constructor
    · rintro ⟨hq | hq, ht⟩
      · exact absurd hq (by decide)
      · exact ⟨(sanitizeQueue_eq_iff "orders".toList q (by decide) (by decide)).1 hq.symm,
          ht.symm⟩
    · rintro ⟨rfl, rfl⟩
      exact ⟨Or.inr (by decide), by decide⟩
  · intro q
    rw [hb2]
    simp [dispatchMatch, splitBinding]
  · intro q t
    rw [hb3]
    simp only [dispatchMatch, hs3, Bool.and_eq_true, Bool.or_eq_true, decide_eq_true_eq]
    constructor
    · rintro ⟨hq | hq, _⟩
      · exact absurd hq (by decide)
      · exact (sanitizeQueue_eq_iff "orders".toList q (by decide) (by decide)).1 hq.symm
    · rintro rfl
      exact ⟨Or.inr (by decide), trivial⟩

/-! ## C5: closeAll -/

/-- Executable well-formedness of a broker registry: every entry is keyed by
its topology's (nonempty) name and owns a connection of the same name. -/
def wfBroker (b : Broker) : Bool :=
  b.connections.all (fun kv =>
    (kv.2.name = kv.1 && !(kv.1 = ""))
    && match kv.2.connection with
       | some c => c.name = kv.1
       | none => false)

theorem lookupStr_insertStr_self {α : Type} (k : String) (v : α) :
    ∀ l, lookupStr k (insertStr k v l) = some v := by
  intro l
  induction l with
  | nil => simp [insertStr, lookupStr]
  | cons kv rest ih =>
    obtain ⟨k', v'⟩ := kv
    by_cases h : k' = k
    · simp [insertStr, lookupStr, h]
    · simp [insertStr, lookupStr, h, ih]

theorem lookupStr_insertStr_ne {α : Type} (k k' : String) (hne : ¬ k' = k) (v : α) :
    ∀ l, lookupStr k' (insertStr k v l) = lookupStr k' l := by
  have hne' : ¬ k = k' := fun h => hne h.symm
  intro l
  induction l with
  | nil => simp [insertStr, lookupStr, hne']
  | cons kv rest ih =>
    obtain ⟨k0, v0⟩ := kv
    by_cases h : k0 = k
    · subst h
      simp [insertStr, lookupStr, hne']
    · simp only [insertStr, if_neg h, lookupStr]
      by_cases h0 : k0 = k'
      · simp [h0]
      · simp [h0, ih]

theorem lookupStr_mem {α : Type} : ∀ (l : List (String × α)) (k : String),
    (∃ v, (k, v) ∈ l) → ∃ v', lookupStr k l = some v' ∧ (k, v') ∈ l := by
  intro l
  induction l with
  | nil => intro k ⟨v, hv⟩; exact absurd hv (by simp)
  | cons kv rest ih =>
    intro k ⟨v, hv⟩
    obtain ⟨k0, v0⟩ := kv
    by_cases h : k0 = k
    · subst h
      exact ⟨v0, by simp [lookupStr], by simp⟩
    · have hvrest : (k, v) ∈ rest := by
        rcases List.mem_cons.1 hv with heq | hm
        · exact absurd (congrArg Prod.fst heq).symm h
        · exact hm
      obtain ⟨v', hl, hm⟩ := ih k ⟨v, hvrest⟩
      exact ⟨v', by simp [lookupStr, h, hl], List.mem_cons_of_mem _ hm⟩

/-- Loop invariant for the closers map: every snapshot entry is keyed by its
topology's nonempty name, and the evolving registry still resolves that key
to a topology owning a connection of the same name. -/
def closersInv (l : List (String × Topology)) (b : Broker) : Prop :=
  ∀ kv ∈ l, kv.2.name = kv.1 ∧ kv.1 ≠ ""
    ∧ ∃ t' c', lookupStr kv.1 b.connections = some t'
        ∧ t'.connection = some c' ∧ c'.name = kv.1

theorem closersLoop_spec (env : String → Except String Unit) (reset : Bool) :
    ∀ (l : List (String × Topology)) (b : Broker), closersInv l b →
    ∃ bfin, Broker.closersLoop env reset b l
      = (bfin, l.map (fun kv => Effect.closeConnection kv.1 reset),
         .ok (l.map (fun kv => env kv.1))) := by
  intro l
  induction l with
  | nil => intro b _; exact ⟨b, rfl⟩
  | cons kv rest ih =>
    intro b hinv
    obtain ⟨hname, hne, t', c', hlook, hconn, hcname⟩ := hinv kv (by simp)
    obtain ⟨k, t⟩ := kv
    have hname' : t.name = k := hname
    have hclose : Broker.close env b (some t.name) reset
        = ((if reset
            then { b with connections := insertStr k { t' with channels := [] } b.connections }
            else b),
           [Effect.closeConnection k reset], .ok (env k)) := by
      rw [Broker.close, hname']
      simp only [jsOrStr, if_neg hne, hlook, hconn, hcname]
    set bnext := (if reset
      then { b with connections := insertStr k { t' with channels := [] } b.connections }
      else b) with hbnext
    have hinv' : closersInv rest bnext := by
      intro kv2 hkv2
      obtain ⟨h1, h2, t2, c2, hl2, hc2, hn2⟩ := hinv kv2 (List.mem_cons_of_mem _ hkv2)
      refine ⟨h1, h2, ?_⟩
      rw [hbnext]
      by_cases hr : reset
      · rw [if_pos hr]
        by_cases hk : kv2.1 = k
        · refine ⟨{ t' with channels := [] }, c', ?_, hconn, by rw [hk]; exact hcname⟩
          show lookupStr kv2.1 (insertStr k { t' with channels := [] } b.connections) = _
          rw [hk, lookupStr_insertStr_self]
        · refine ⟨t2, c2, ?_, hc2, hn2⟩
          show lookupStr kv2.1 (insertStr k { t' with channels := [] } b.connections) = _
          rw [lookupStr_insertStr_ne k kv2.1 hk, hl2]
      · rw [if_neg hr]
        exact ⟨t2, c2, hl2, hc2, hn2⟩
    obtain ⟨bfin, hloop⟩ := ih bnext hinv'
    refine ⟨bfin, ?_⟩
    simp only [Broker.closersLoop, hclose, hloop, List.map_cons]
    simp

theorem whenAll_all_ok : ∀ rs : List (Except String Unit),
    (∀ x ∈ rs, x = .ok ()) → whenAll rs = .ok (rs.map fun _ => ()) := by
  intro rs
  induction rs with
  | nil => intro _; rfl
  | cons x rest ih =>
    intro h
    have hx : x = .ok () := h x (by simp)
    subst hx
    rw [show whenAll (Except.ok () :: rest) = (whenAll rest).map (fun l => () :: l) from rfl]
    rw [ih (fun y hy => h y (by simp [hy]))]
    rfl

theorem whenAll_first_error : ∀ (pre : List (Except String Unit)) (e : String)
    (post : List (Except String Unit)), (∀ x ∈ pre, x = .ok ()) →
    whenAll (pre ++ .error e :: post) = .error e := by
  intro pre
  induction pre with
  | nil => intro e post _; rfl
  | cons x rest ih =>
    intro e post h
    have hx : x = .ok () := h x (by simp)
    subst hx
    rw [List.cons_append]
    rw [show whenAll (Except.ok () :: (rest ++ Except.error e :: post))
        = (whenAll (rest ++ Except.error e :: post)).map (fun l => () :: l) from rfl]
    rw [ih e post (fun y hy => h y (by simp [hy]))]
    rfl

/-- **C5 (amended).** For every well-formed set of registered connections,
`closeAll(reset)` initiates a close on every one of them (exactly one
close-delegation per registered connection, in registry order), and its
result aggregates the individual close results with `when.all` semantics:
it resolves with the list of values when every close resolves, and rejects
with the first failure — the results of the remaining closes, though those
closes were all initiated, are not carried in the rejected aggregate. -/
theorem closeAll_initiates_all (env : String → Except String Unit) (b : Broker) (reset : Bool)
    (hwf : wfBroker b = true) :
    ((Broker.closeAll env b reset).2.1
        = b.connections.map (fun kv => Effect.closeConnection kv.1 reset)
      ∧ (Broker.closeAll env b reset).2.2
        = .ok (whenAll (b.connections.map (fun kv => env kv.1))))
    ∧ (∀ rs : List (Except String Unit), (∀ x ∈ rs, x = .ok ()) →
        whenAll rs = .ok (rs.map fun _ => ()))
    ∧ (∀ (pre : List (Except String Unit)) (e : String) (post : List (Except String Unit)),
        (∀ x ∈ pre, x = .ok ()) → whenAll (pre ++ .error e :: post) = .error e) := by
  refine ⟨?_, whenAll_all_ok, whenAll_first_error⟩
  have hinv : closersInv b.connections b := by
    intro kv hkv
    rw [wfBroker, List.all_eq_true] at hwf
    have := hwf kv hkv
    simp only [Bool.and_eq_true, decide_eq_true_eq, Bool.not_eq_true'] at this
    obtain ⟨⟨h1, h2⟩, h3⟩ := this
    refine ⟨h1, by simpa using h2, ?_⟩
    obtain ⟨t', hl, hm⟩ := lookupStr_mem b.connections kv.1 ⟨kv.2, by
      have : (kv.1, kv.2) = kv := rfl
      rw [this]
      exact hkv⟩
    have := hwf (kv.1, t') hm
    simp only [Bool.and_eq_true, decide_eq_true_eq, Bool.not_eq_true'] at this
    obtain ⟨⟨_, _⟩, h3'⟩ := this
    cases hc : t'.connection with
    | none => rw [hc] at h3'; simp at h3'
    | some c' =>
      rw [hc] at h3'
      simp only [decide_eq_true_eq] at h3'
      exact ⟨t', c', hl, hc, h3'⟩
  obtain ⟨bfin, hloop⟩ := closersLoop_spec env reset b.connections b hinv
  rw [Broker.closeAll, hloop]
  exact ⟨rfl, rfl⟩

/-- Two registered connections for the C5 fixtures. -/
def topoA : Topology :=
  { name := "a", connection := some { name := "a", retryLimit := 3, failAfter := 60 },
    options := {} }

/-- Second registered connection for the C5 fixtures. -/
def topoB : Topology :=
  { name := "b", connection := some { name := "b", retryLimit := 3, failAfter := 60 },
    options := {} }

/-- A broker with the two registered connections "a" and "b". -/
def brokerAB : Broker := { Broker.new with connections := [("a", topoA), ("b", topoB)] }

/-- Close environment: "a" rejects with "boom", everything else resolves. -/
def envBoom : String → Except String Unit :=
  fun n => if n = "a" then .error "boom" else .ok ()

/-- Close environment: "a" rejects with "boom", everything else with "crash". -/
def envCrash : String → Except String Unit :=
  fun n => if n = "a" then .error "boom" else .error "crash"

/-- **C5 (counterexample).** With connections "a" and "b" where the close of
"a" fails, the aggregate of `closeAll` is the bare first rejection: it is
identical whether "b"'s close succeeded or failed, so the results of the
remaining closes are not reflected in the aggregate, contrary to the claim. -/
theorem closeAll_counterexample :
    (Broker.closeAll envBoom brokerAB false).2.2 = .ok (.error "boom")
    ∧ (Broker.closeAll envCrash brokerAB false).2.2 = .ok (.error "boom")
    ∧ envBoom "b" = .ok ()
    ∧ envCrash "b" = .error "crash" := by
  refine ⟨by decide, by decide, by decide, by decide⟩

/-- Witness for the amended C5 at a concrete broker: both closes are
initiated on `brokerAB` and the aggregate is the first rejection. -/
theorem closeAll_initiates_all_witness :
    ((Broker.closeAll envBoom brokerAB false).2.1
        = [Effect.closeConnection "a" false, Effect.closeConnection "b" false]
      ∧ (Broker.closeAll envBoom brokerAB false).2.2
        = .ok (whenAll ([Except.error "boom", Except.ok ()] : List (Except String Unit))))
    ∧ whenAll ([Except.ok (), Except.ok ()] : List (Except String Unit)) = .ok [(), ()]
    ∧ whenAll (([Except.ok ()] : List (Except String Unit)) ++ Except.error "boom" :: [Except.ok ()])
        = .error "boom" := by
  have h := closeAll_initiates_all envBoom brokerAB false (by decide)
  refine ⟨⟨?_, ?_⟩, ?_, ?_⟩
  · rw [h.1.1]
    decide
  · rw [h.1.2]
    decide
  · exact h.2.1 [Except.ok (), Except.ok ()] (by decide)
  · exact h.2.2 [Except.ok ()] "boom" [Except.ok ()] (by decide)

/-! ## C6: the unreachable handler -/

/-- The event names emitted in an effect list. -/
def emittedEvents (effs : List Effect) : List String :=
  effs.filterMap (fun e => match e with | .emit ev _ => some ev | _ => none)

/-- The default connection object of the fixtures. -/
def connD : Connection := { name := "default", retryLimit := 3, failAfter := 60 }

/-- The broker with an armed ack timer used by the C6 evaluation. -/
def bArmed : Broker := { Broker.new with ackIntervalId := some 500, ackTimerArmed := true }

/-- **C6 (code bug).** When a connection named "default" signals unreachable,
the wired handler emits the generic "unreachable" event and stops the
ack-batcher timer, as the claim says — but its second emission is an event
named just "default" carrying the string ".connection.unreachable" as the
payload (lines 82-86: a comma where the three sibling handlers concatenate),
so no event named "default.connection.unreachable" is emitted. -/
theorem unreachable_event_bug :
    (Broker.onUnreachable bArmed "default" connD).2
      = [Effect.emit "unreachable" (.conn "default"),
         Effect.emit "default" (.str ".connection.unreachable"),
         Effect.stopTimer]
    ∧ emittedEvents (Broker.onUnreachable bArmed "default" connD).2
      = ["unreachable", "default"]
    ∧ "default.connection.unreachable" ∉ emittedEvents (Broker.onUnreachable bArmed "default" connD).2
    ∧ (Broker.onUnreachable bArmed "default" connD).1.ackTimerArmed = false := by
  refine ⟨by decide, by decide, by decide, by decide⟩

/-! ## C8: startSubscription on an undeclared queue -/

/-- **C8.** Against the resolved (registered) connection, `startSubscription`
behaves as claimed: when the named queue was never declared there, the call
fails with a synchronous error — a thrown exception, before any asynchronous
work — and performs no subscription, leaving the broker unchanged; when the
queue exists, it subscribes to it and returns the queue object. -/
theorem startSubscription_spec (b : Broker) (queueName connectionName : String)
    (t : Topology) (hcn : ¬ connectionName = "")
    (hconn : lookupStr connectionName b.connections = some t) :
    (lookupStr ("queue:" ++ queueName) t.channels = none →
      Broker.startSubscription b queueName none (some connectionName)
        = (b, (if !b.hasHandles then [Effect.warn ("Subscription to '" ++ queueName
            ++ "' was started without any handlers. This will result in lost messages!")]
            else []),
           .error (.error ("No queue named '" ++ queueName ++ "' for connection '"
             ++ connectionName ++ "'. Subscription failed."))))
    ∧ (∀ q, lookupStr ("queue:" ++ queueName) t.channels = some q →
      Broker.startSubscription b queueName none (some connectionName)
        = (b, (if !b.hasHandles then [Effect.warn ("Subscription to '" ++ queueName
            ++ "' was started without any handlers. This will result in lost messages!")]
            else []) ++ [Effect.subscribeQueue queueName false],
           .ok q)) := by
  constructor
  · intro hq
    simp only [Broker.startSubscription, jsOrStr, if_neg hcn, hconn, hq]
  · intro q hq
    simp only [Broker.startSubscription, jsOrStr, if_neg hcn, hconn, hq]

/-- A declared "orders" queue channel. -/
def qOrders : Channel := { kind := "queue", chanName := "orders" }

/-- A topology where only queue "orders" is declared. -/
def topoQ : Topology := { topo0 with channels := [("queue:orders", qOrders)] }

/-- A broker (with a handler registered) owning connection "default" with
queue "orders". -/
def bQ : Broker :=
  { Broker.new with connections := [("default", topoQ)], hasHandles := true }

/-- Witness for C8: subscribing to the undeclared queue "missing" throws
(and subscribes nothing); subscribing to the declared queue "orders"
subscribes and returns the queue. -/
theorem startSubscription_spec_witness :
    Broker.startSubscription bQ "missing" none (some "default")
      = (bQ, [], .error (.error "No queue named 'missing' for connection 'default'. Subscription failed."))
    ∧ Broker.startSubscription bQ "orders" none (some "default")
      = (bQ, [Effect.subscribeQueue "orders" false], .ok qOrders) := by
  have h := startSubscription_spec bQ "missing" "default" topoQ (by decide) (by decide)
  have h2 := startSubscription_spec bQ "orders" "default" topoQ (by decide) (by decide)
  constructor
  · have := h.1 (by decide)
    simpa using this
  · have := h2.2 qOrders (by decide)
    simpa using this

/-! ## C10: hasHandles is monotone -/

theorem addConnection_hasHandles (b : Broker) (o : Option ConnectionOpts) :
    (Broker.addConnection b o).1.hasHandles = b.hasHandles := by
  unfold Broker.addConnection
  cases h : lookupStr ((resolveConnectionOptions o).name.getD "default") b.connections with
  | none => simp [h]
  | some t => cases hc : t.connection <;> simp [h, hc]

theorem addQueue_hasHandles (b : Broker) (n : String) (o : QueueOpts) (c : Option String) :
    (Broker.addQueue b n o c).1.hasHandles = b.hasHandles := by
  unfold Broker.addQueue
  cases h : lookupStr (jsOrStr c "default") b.connections <;> simp [h]

theorem addExchange_hasHandles (b : Broker) (n ty : String) (c : Option String) :
    (Broker.addExchange b n ty c).1.hasHandles = b.hasHandles := by
  unfold Broker.addExchange
  cases h : lookupStr (jsOrStr c "default") b.connections <;> simp [h]

theorem bindExchange_hasHandles (b : Broker) (s t : String) (k : List String)
    (c : Option String) : (Broker.bindExchange b s t k c).1.hasHandles = b.hasHandles := by
  unfold Broker.bindExchange
  cases h : lookupStr (jsOrStr c "default") b.connections <;> simp [h]

theorem bindQueue_hasHandles (b : Broker) (s t : String) (k : List String)
    (c : Option String) : (Broker.bindQueue b s t k c).1.hasHandles = b.hasHandles := by
  unfold Broker.bindQueue
  cases h : lookupStr (jsOrStr c "default") b.connections <;> simp [h]

theorem deleteExchange_hasHandles (b : Broker) (n : String) (c : Option String) :
    (Broker.deleteExchange b n c).1.hasHandles = b.hasHandles := by
  unfold Broker.deleteExchange
  cases h : lookupStr (jsOrStr c "default") b.connections <;> simp [h]

theorem deleteQueue_hasHandles (b : Broker) (n : String) (c : Option String) :
    (Broker.deleteQueue b n c).1.hasHandles = b.hasHandles := by
  unfold Broker.deleteQueue
  cases h : lookupStr (jsOrStr c "default") b.connections <;> simp [h]

theorem setAckInterval_hasHandles (b : Broker) (i : Nat) :
    (Broker.setAckInterval b i).1.hasHandles = b.hasHandles := by
  unfold Broker.setAckInterval Broker.clearAckInterval
  by_cases h : b.ackIntervalId.isSome <;> simp [h]

theorem onConnected_hasHandles (b : Broker) (c : Connection) :
    (Broker.onConnected b c).1.hasHandles = b.hasHandles := by
  unfold Broker.onConnected
  rw [setAckInterval_hasHandles]

theorem onUnreachable_hasHandles (b : Broker) (n : String) (c : Connection) :
    (Broker.onUnreachable b n c).1.hasHandles = b.hasHandles := rfl

theorem close_hasHandles (env : String → Except String Unit) (b : Broker)
    (c : Option String) (r : Bool) :
    (Broker.close env b c r).1.hasHandles = b.hasHandles := by
  unfold Broker.close
  cases h : lookupStr (jsOrStr c "default") b.connections with
  | none => simp [h]
  | some t =>
    cases hc : t.connection with
    | none => simp [h, hc]
    | some cn => by_cases hr : r <;> simp [h, hc, hr]

theorem closersLoop_hasHandles (env : String → Except String Unit) (reset : Bool) :
    ∀ (l : List (String × Topology)) (b : Broker),
    (Broker.closersLoop env reset b l).1.hasHandles = b.hasHandles := by
  intro l
  induction l with
  | nil => intro b; rfl
  | cons kv rest ih =>
    intro b
    obtain ⟨k, t⟩ := kv
    have hch := close_hasHandles env b (some t.name) reset
    rcases hcl : Broker.close env b (some t.name) reset with ⟨b', effs, res⟩
    rw [hcl] at hch
    cases res with
    | error e =>
      simp only [Broker.closersLoop, hcl]
      exact hch
    | ok r =>
      have hih := ih b'
      rcases hloop : Broker.closersLoop env reset b' rest with ⟨b'', effs2, res2⟩
      rw [hloop] at hih
      cases res2 with
      | error e =>
        simp only [Broker.closersLoop, hcl, hloop]
        exact hih.trans hch
      | ok rs =>
        simp only [Broker.closersLoop, hcl, hloop]
        exact hih.trans hch

theorem closeAll_hasHandles (env : String → Except String Unit) (b : Broker) (r : Bool) :
    (Broker.closeAll env b r).1.hasHandles = b.hasHandles := by
  have h := closersLoop_hasHandles env r b.connections b
  rcases hl : Broker.closersLoop env r b b.connections with ⟨b', effs, res⟩
  rw [hl] at h
  cases res with
  | error e => simp only [Broker.closeAll, hl]; exact h
  | ok rs => simp only [Broker.closeAll, hl]; exact h

theorem shutdown_hasHandles (env : String → Except String Unit) (b : Broker) :
    (Broker.shutdown env b).1.hasHandles = b.hasHandles := by
  have h := closeAll_hasHandles env b true
  rcases hl : Broker.closeAll env b true with ⟨b', effs, res⟩
  rw [hl] at h
  cases res with
  | error e => simp only [Broker.shutdown, hl]; exact h
  | ok r =>
    cases r with
    | error e => simp only [Broker.shutdown, hl]; exact h
    | ok u => simp only [Broker.shutdown, hl, Broker.clearAckInterval]; exact h

theorem publish_hasHandles (b : Broker) (e : String) (o : PublishOpts) (c : Option String) :
    (Broker.publish b e o c).1.hasHandles = b.hasHandles := by
  unfold Broker.publish
  cases h : lookupStr (jsOrStr c (jsOrStr o.connectionName "default")) b.connections with
  | none => simp [h]
  | some t =>
    cases hq : lookupStr ("exchange:" ++ e) t.channels <;> simp [h, hq]

theorem request_hasHandles (b : Broker) (e : String) (o : PublishOpts) (c : Option String)
    (rid : Nat) : (Broker.request b e o c rid).1.hasHandles = b.hasHandles := by
  unfold Broker.request
  have h := publish_hasHandles b e
    { o with messageId := some rid,
             connectionName := some (jsOrStr c (jsOrStr o.connectionName "default")) } none
  rcases hp : Broker.publish b e
    { o with messageId := some rid,
             connectionName := some (jsOrStr c (jsOrStr o.connectionName "default")) } none
    with ⟨b', effs, res⟩
  rw [hp] at h
  cases res <;> simp [hp] <;> exact h

theorem startSubscription_hasHandles (b : Broker) (q : String) (ex : Option ExclusiveArg)
    (c : Option String) : (Broker.startSubscription b q ex c).1.hasHandles = b.hasHandles := by
  unfold Broker.startSubscription
  dsimp only
  repeat' split
  all_goals rfl

/-- **C10.** The broker's `hasHandles` flag starts false, is set to true by
`handle()`, and no operation of the facade's surface (including subscription
removal and `reset`) ever sets it back to false — monotone per step and over
every operation sequence — so the "started without any handlers" warnings of
`addQueue` and `startSubscription` can only fire before the first `handle()`
call of the broker's lifetime. -/
theorem hasHandles_monotone :
    Broker.new.hasHandles = false
    ∧ (∀ b mt qn, (Broker.handle b mt qn).1.hasHandles = true)
    ∧ (∀ env b op, b.hasHandles = true → (applyOp env b op).hasHandles = true)
    ∧ (∀ env b ops, b.hasHandles = true → (runOps env b ops).hasHandles = true)
    ∧ (∀ b n o c, b.hasHandles = true →
        (Broker.addQueue b n o c).2.1.all (fun e => !e.isWarn) = true)
    ∧ (∀ b q ex c, b.hasHandles = true →
        (Broker.startSubscription b q ex c).2.1.all (fun e => !e.isWarn) = true) := by
  have hstep : ∀ env b op, b.hasHandles = true → (applyOp env b op).hasHandles = true := by
    intro env b op hb
    cases op with
    | addConnection o => rw [applyOp, addConnection_hasHandles]; exact hb
    | addExchange n ty c => rw [applyOp, addExchange_hasHandles]; exact hb
    | addQueue n o c => rw [applyOp, addQueue_hasHandles]; exact hb
    | addSerializer ct => rw [applyOp]; exact hb
    | batchAck => rw [applyOp]; exact hb
    | bindExchange s t k c => rw [applyOp, bindExchange_hasHandles]; exact hb
    | bindQueue s t k c => rw [applyOp, bindQueue_hasHandles]; exact hb
    | clearAckInterval => rw [applyOp]; exact hb
    | close c r => rw [applyOp, close_hasHandles]; exact hb
    | closeAll r => rw [applyOp, closeAll_hasHandles]; exact hb
    | deleteExchange n c => rw [applyOp, deleteExchange_hasHandles]; exact hb
    | deleteQueue n c => rw [applyOp, deleteQueue_hasHandles]; exact hb
    | handle mt qn => rfl
    | unsubscribe t => rw [applyOp]; exact hb
    | ignoreHandlerErrors => rw [applyOp]; exact hb
    | nackOnError => rw [applyOp]; exact hb
    | nackUnhandled => rw [applyOp]; exact hb
    | onUnhandled => rw [applyOp]; exact hb
    | rejectUnhandled => rw [applyOp]; exact hb
    | publish e o c => rw [applyOp, publish_hasHandles]; exact hb
    | request e o c rid => rw [applyOp, request_hasHandles]; exact hb
    | reset => rw [applyOp]; exact hb
    | retry c => rw [applyOp]; exact hb
    | setAckInterval i => rw [applyOp, setAckInterval_hasHandles]; exact hb
    | shutdown => rw [applyOp, shutdown_hasHandles]; exact hb
    | startSubscription q ex c => rw [applyOp, startSubscription_hasHandles]; exact hb
    | onConnected c => rw [applyOp, onConnected_hasHandles]; exact hb
    | onClosed c => rw [applyOp]; exact hb
    | onFailed n c e => rw [applyOp]; exact hb
    | onUnreachable n c => rw [applyOp, onUnreachable_hasHandles]; exact hb
  refine ⟨rfl, ?_, hstep, ?_, ?_, ?_⟩
  · intro b mt qn
    rfl
  · intro env b ops hb
    induction ops generalizing b with
    | nil => exact hb
    | cons op ops ih => exact ih _ (hstep env b op hb)
  · intro b n o c hb
    have hcond : (o.subscribe && !b.hasHandles) = false := by rw [hb]; simp
    cases hl : lookupStr (jsOrStr c "default") b.connections with
    | none => simp [Broker.addQueue, hl, hcond]
    | some t => simp [Broker.addQueue, hl, hcond]
  · intro b q ex c hb
    have hcond : (!b.hasHandles) = false := by rw [hb]; rfl
    unfold Broker.startSubscription
    dsimp only
    simp only [hcond, Bool.false_eq_true, if_false]
    repeat' split
    all_goals simp [Effect.isWarn]

/-- Witness for C10 at concrete inputs: the flag starts false, `handle` sets
it, a `reset` (and an `unsubscribe`) on a broker with the flag set keeps it
set, and neither `addQueue` nor `startSubscription` warns once it is set. -/
theorem hasHandles_monotone_witness :
    Broker.new.hasHandles = false
    ∧ (Broker.handle Broker.new (some "created".toList) none).1.hasHandles = true
    ∧ (applyOp env0 bHandled BrokerOp.reset).hasHandles = true
    ∧ (runOps env0 bHandled [BrokerOp.unsubscribe "#.created".toList, BrokerOp.reset,
        BrokerOp.closeAll true]).hasHandles = true
    ∧ (Broker.addQueue bQ "q" { subscribe := true } none).2.1.all (fun e => !e.isWarn) = true
    ∧ (Broker.startSubscription bQ "orders" none none).2.1.all (fun e => !e.isWarn) = true :=
  ⟨hasHandles_monotone.1,
   hasHandles_monotone.2.1 Broker.new (some "created".toList) none,
   hasHandles_monotone.2.2.1 env0 bHandled BrokerOp.reset (by decide),
   hasHandles_monotone.2.2.2.1 env0 bHandled _ (by decide),
   hasHandles_monotone.2.2.2.2.1 bQ "q" { subscribe := true } none (by decide),
   hasHandles_monotone.2.2.2.2.2 bQ "orders" none none (by decide)⟩

end Rabbot
